import Mathlib

set_option maxRecDepth 4000

/-!
# WKB/WKT codec verification

Verification of the `zipcode-lookup` repository: a six-line script
(`src/decode_wkb.py`) that hex-decodes a hard-coded Well-Known Binary (WKB)
string, parses it into a geometry and prints the geometry's Well-Known Text
(WKT) form.  The script delegates decoding to an external geometry library,
so the codec itself is modelled here from the specification's component
design (§4.1 WKB Decoder, §4.2 WKT Encoder): byte sequences are
`List Nat` (each entry one byte), IEEE-754 binary64 coordinates are kept as
their 64-bit patterns (`Nat` below `2 ^ 64`) and interpreted exactly as
rationals where a numeric comparison is needed.
-/

namespace Wkb

/-- Modelled from the spec: the named decode failures of §7
(`InvalidByteOrder`, `UnsupportedType`, `TruncatedInput`, plus
`MalformedHexString` for the hex-decode step preceding WKB decode). -/
inductive DecodeError where
  | invalidByteOrder
  | unsupportedType
  | truncatedInput
  | malformedHexString
deriving DecidableEq, Repr

/-- Modelled from the spec: the tagged geometry variant of §3.  Coordinates
are fixed-size tuples of 64-bit IEEE-754 patterns, kept as raw `Nat`
patterns; polygons hold rings; the Multi* variants hold the payloads of
their nested sub-geometries. -/
inductive GeomBody where
  | point (c : List Nat)
  | lineString (cs : List (List Nat))
  | polygon (rs : List (List (List Nat)))
  | multiPoint (ps : List (List Nat))
  | multiLineString (ls : List (List (List Nat)))
  | multiPolygon (qs : List (List (List (List Nat))))
deriving DecidableEq, Repr

/-- Modelled from the spec: a geometry value — dimensionality flags from the
type-tag header, the optional spatial reference identifier metadata (§3),
and the body. -/
structure Geometry where
  hasZ : Bool
  hasM : Bool
  srid : Option Nat
  body : GeomBody
deriving DecidableEq, Repr

/-- The WKB low-nibble code of each base geometry kind (§4.1). -/
def kindCode : GeomBody → Nat
  | .point _ => 1
  | .lineString _ => 2
  | .polygon _ => 3
  | .multiPoint _ => 4
  | .multiLineString _ => 5
  | .multiPolygon _ => 6

/-- Coordinate dimensionality selected by the header flags (§3): 2, plus one
for Z, plus one for M. -/
def dimOf (z m : Bool) : Nat :=
  2 + (if z then 1 else 0) + (if m then 1 else 0)

/-- Dimensionality of a geometry value. -/
def Geometry.dim (g : Geometry) : Nat := dimOf g.hasZ g.hasM

/-- A consuming parser over byte lists. -/
def Parser (α : Type) : Type := List Nat → Except DecodeError (α × List Nat)

/-- Parser returning `a` without consuming input. -/
def ppure {α : Type} (a : α) : Parser α := fun bs => .ok (a, bs)

/-- Parser failing with error `e`. -/
def pfail {α : Type} (e : DecodeError) : Parser α := fun _ => .error e

/-- Sequencing of parsers. -/
def pbind {α β : Type} (p : Parser α) (q : α → Parser β) : Parser β :=
  fun bs =>
    match p bs with
    | .ok (a, r) => q a r
    | .error e => .error e

/-- Read one byte; fewer bytes than required is `truncatedInput` (§4.1). -/
def readByte : Parser Nat :=
  fun bs =>
    match bs with
    | [] => .error .truncatedInput
    | b :: r => .ok (b, r)

/-- Read `k` bytes. -/
def readBytes : Nat → Parser (List Nat)
  | 0 => ppure []
  | k + 1 => pbind readByte fun b => pbind (readBytes k) fun l => ppure (b :: l)

/-- Value of a little-endian byte list. -/
def leNat (l : List Nat) : Nat := l.foldr (fun b acc => b + 256 * acc) 0

/-- Read a `k`-byte unsigned integer in the byte order selected by the
header (`lil = true` for little-endian). -/
def readUInt (lil : Bool) (k : Nat) : Parser Nat :=
  pbind (readBytes k) fun l => ppure (leNat (if lil then l else l.reverse))

/-- Run parser `p` exactly `n` times, collecting the results. -/
def preplicate {α : Type} : Nat → Parser α → Parser (List α)
  | 0, _ => ppure []
  | n + 1, p => pbind p fun a => pbind (preplicate n p) fun l => ppure (a :: l)

/-- Read one coordinate tuple: `d` eight-byte IEEE-754 patterns (§4.1). -/
def readCoord (lil : Bool) (d : Nat) : Parser (List Nat) :=
  preplicate d (readUInt lil 8)

/-- Read a 4-byte count, then that many coordinate tuples (§4.1,
LineString payload / one polygon ring). -/
def readCoordSeq (lil : Bool) (d : Nat) : Parser (List (List Nat)) :=
  pbind (readUInt lil 4) fun n => preplicate n (readCoord lil d)

/-- Read a 4-byte ring count, then that many rings (§4.1, Polygon
payload). -/
def readRingSeq (lil : Bool) (d : Nat) : Parser (List (List (List Nat))) :=
  pbind (readUInt lil 4) fun n => preplicate n (readCoordSeq lil d)

/-- Read the byte-order byte: 0 is big-endian, 1 is little-endian, anything
else is `invalidByteOrder` (§4.1). -/
def readOrder : Parser Bool :=
  pbind readByte fun b =>
    if b = 1 then ppure true
    else if b = 0 then ppure false
    else pfail .invalidByteOrder

/-- Z flag of a type tag: bit 31 (`0x80000000`, §4.1). -/
def tagZ (tag : Nat) : Bool := tag / 2 ^ 31 % 2 = 1

/-- M flag of a type tag: bit 30 (`0x40000000`, §4.1). -/
def tagM (tag : Nat) : Bool := tag / 2 ^ 30 % 2 = 1

/-- SRID-extended flag of a type tag: bit 29 (`0x20000000`, §4.1). -/
def tagS (tag : Nat) : Bool := tag / 2 ^ 29 % 2 = 1

/-- Modelled from the spec: decode one nested sub-geometry of a Multi*
kind — a fully self-describing blob with its own byte-order byte and type
tag (§4.1).  Its low nibble must be the expected base kind `k` and its
dimensionality flags must match the parent's (the §3 invariant that all
coordinates of one geometry share one dimensionality); a mismatch is an
unrecognized type for this position, `unsupportedType`.  A child SRID
field, when flagged, is read and dropped (§3: SRID is metadata). -/
def readChild {α : Type} (k : Nat) (z m : Bool) (body : Bool → Parser α) : Parser α :=
  pbind readOrder fun lil =>
  pbind (readUInt lil 4) fun tag =>
    if tag % 16 = k ∧ tagZ tag = z ∧ tagM tag = m then
      pbind (if tagS tag then pbind (readUInt lil 4) fun _ => ppure () else ppure ())
        fun _ => body lil
    else pfail .unsupportedType

/-- Modelled from the spec: the WKB decoder of §4.1 on a byte stream —
byte-order byte, 4-byte type tag (low nibble is the base kind, bits 31/30/29
are the Z / M / SRID flags), optional 4-byte SRID, then the payload of the
selected kind; Multi* payloads are element counts followed by nested
self-describing sub-geometry blobs. -/
def decodeGeom : Parser Geometry :=
  pbind readOrder fun lil =>
  pbind (readUInt lil 4) fun tag =>
    let z := tagZ tag
    let m := tagM tag
    let d := dimOf z m
    if 1 ≤ tag % 16 ∧ tag % 16 ≤ 6 then
      pbind (if tagS tag then pbind (readUInt lil 4) fun s => ppure (some s)
             else ppure none) fun srid =>
      pbind
        (match tag % 16 with
         | 1 => pbind (readCoord lil d) fun c => ppure (GeomBody.point c)
         | 2 => pbind (readCoordSeq lil d) fun cs => ppure (GeomBody.lineString cs)
         | 3 => pbind (readRingSeq lil d) fun rs => ppure (GeomBody.polygon rs)
         | 4 => pbind (readUInt lil 4) fun n =>
                pbind (preplicate n (readChild 1 z m fun l2 => readCoord l2 d))
                  fun ps => ppure (GeomBody.multiPoint ps)
         | 5 => pbind (readUInt lil 4) fun n =>
                pbind (preplicate n (readChild 2 z m fun l2 => readCoordSeq l2 d))
                  fun ls => ppure (GeomBody.multiLineString ls)
         | _ => pbind (readUInt lil 4) fun n =>
                pbind (preplicate n (readChild 3 z m fun l2 => readRingSeq l2 d))
                  fun qs => ppure (GeomBody.multiPolygon qs))
        fun body => ppure (Geometry.mk z m srid body)
    else pfail .unsupportedType

/-- Modelled from the spec: the top-level decode contract of §4.1 — the
input's length must match exactly what the header declares, else
`truncatedInput`. -/
def decode (bs : List Nat) : Except DecodeError Geometry :=
  match decodeGeom bs with
  | .ok (g, []) => .ok g
  | .ok (_, _ :: _) => .error .truncatedInput
  | .error e => .error e

/-- Value of one hexadecimal digit character, if it is one. -/
def hexDigit (c : Char) : Option Nat :=
  if ('0' ≤ c ∧ c ≤ '9') then some (c.toNat - '0'.toNat)
  else if ('a' ≤ c ∧ c ≤ 'f') then some (c.toNat - 'a'.toNat + 10)
  else if ('A' ≤ c ∧ c ≤ 'F') then some (c.toNat - 'A'.toNat + 10)
  else none

/-- Modelled from the spec: the hex-decode step preceding WKB decode (§7);
odd-length or non-hex-digit input fails with `malformedHexString`. -/
def unhex : List Char → Except DecodeError (List Nat)
  | [] => .ok []
  | [_] => .error .malformedHexString
  | c1 :: c2 :: r =>
    match hexDigit c1, hexDigit c2 with
    | some h, some l =>
      match unhex r with
      | .ok bs => .ok ((16 * h + l) :: bs)
      | .error e => .error e
    | _, _ => .error .malformedHexString

/-- The hard-coded hex literal of `src/decode_wkb.py` line 4. -/
def wkb_hex : String := "0101000020E61000003333333333935AC0C442AD69DEB13F40"

/-- The byte sequence the script passes to the WKB decoder (the hex-decode
of `wkb_hex`). -/
def wkbBytes : List Nat :=
  [1, 1, 0, 0, 32, 230, 16, 0, 0, 51, 51, 51, 51, 51, 147, 90, 192,
   196, 66, 173, 105, 222, 177, 63, 64]

/-- `k` little-endian bytes of `n`. -/
def natLE : Nat → Nat → List Nat
  | 0, _ => []
  | k + 1, n => n % 256 :: natLE k (n / 256)

/-- `k` bytes of `n` in the chosen byte order. -/
def encNat (lil : Bool) (k n : Nat) : List Nat :=
  if lil then natLE k n else (natLE k n).reverse

/-- Modelled from the spec: a standard WKB encoding of one coordinate
tuple — its 8-byte IEEE-754 patterns in order. -/
def encCoord (lil : Bool) (c : List Nat) : List Nat :=
  (c.map (encNat lil 8)).flatten

/-- Modelled from the spec: a counted sequence — a 4-byte element count
followed by the encoded elements. -/
def encSeq {α : Type} (lil : Bool) (enc : α → List Nat) (xs : List α) : List Nat :=
  encNat lil 4 xs.length ++ (xs.map enc).flatten

/-- Modelled from the spec: a nested sub-geometry blob of a Multi* kind —
its own byte-order byte and type tag (base kind `k` with the parent's Z / M
flags, no SRID), then the payload. -/
def encChild (lil : Bool) (k : Nat) (z m : Bool) (payload : List Nat) : List Nat :=
  (if lil then 1 else 0) ::
    (encNat lil 4 (k + (if z then 2 ^ 31 else 0) + (if m then 2 ^ 30 else 0)) ++ payload)

/-- Modelled from the spec: a standard WKB encoder (§8 round-trip
property) — byte-order byte, type tag with the Z / M / SRID flags, optional
SRID field, then the kind's payload. -/
def encode_as_wkb (lil : Bool) (g : Geometry) : List Nat :=
  (if lil then 1 else 0) ::
    (encNat lil 4
      (kindCode g.body + (if g.hasZ then 2 ^ 31 else 0) +
        (if g.hasM then 2 ^ 30 else 0) + (if g.srid.isSome then 2 ^ 29 else 0)) ++
     (match g.srid with
      | some s => encNat lil 4 s
      | none => []) ++
     (match g.body with
      | .point c => encCoord lil c
      | .lineString cs => encSeq lil (encCoord lil) cs
      | .polygon rs => encSeq lil (encSeq lil (encCoord lil)) rs
      | .multiPoint ps =>
        encSeq lil (fun c => encChild lil 1 g.hasZ g.hasM (encCoord lil c)) ps
      | .multiLineString ls =>
        encSeq lil (fun cs => encChild lil 2 g.hasZ g.hasM (encSeq lil (encCoord lil) cs)) ls
      | .multiPolygon qs =>
        encSeq lil
          (fun rs => encChild lil 3 g.hasZ g.hasM (encSeq lil (encSeq lil (encCoord lil)) rs))
          qs))

/-- A representable coordinate tuple: dimensionality `d`, 64-bit
patterns. -/
def coordWf (d : Nat) (c : List Nat) : Prop :=
  c.length = d ∧ c.all (fun w => w < 2 ^ 64)

instance (d : Nat) (c : List Nat) : Decidable (coordWf d c) := by
  unfold coordWf; infer_instance

/-- A representable geometry body for dimensionality `d`: every coordinate
tuple has the declared dimensionality and 64-bit entries, and every element
count fits the 4-byte count fields. -/
def bodyWf (d : Nat) : GeomBody → Prop
  | .point c => coordWf d c
  | .lineString cs => cs.length < 2 ^ 32 ∧ cs.all (fun c => coordWf d c)
  | .polygon rs =>
    rs.length < 2 ^ 32 ∧
      rs.all (fun r => r.length < 2 ^ 32 ∧ r.all (fun c => coordWf d c))
  | .multiPoint ps => ps.length < 2 ^ 32 ∧ ps.all (fun c => coordWf d c)
  | .multiLineString ls =>
    ls.length < 2 ^ 32 ∧
      ls.all (fun r => r.length < 2 ^ 32 ∧ r.all (fun c => coordWf d c))
  | .multiPolygon qs =>
    qs.length < 2 ^ 32 ∧
      qs.all (fun rs =>
        rs.length < 2 ^ 32 ∧
          rs.all (fun r => r.length < 2 ^ 32 ∧ r.all (fun c => coordWf d c)))

instance (d : Nat) (b : GeomBody) : Decidable (bodyWf d b) := by
  cases b <;> (unfold bodyWf; infer_instance)

/-- A representable geometry: well-formed body, SRID fitting its 4-byte
field. -/
def Geometry.wf (g : Geometry) : Prop :=
  (match g.srid with
   | some s => s < 2 ^ 32
   | none => True) ∧ bodyWf g.dim g.body

instance (g : Geometry) : Decidable g.wf := by
  unfold Geometry.wf; cases g.srid <;> infer_instance

/-! ## WKT encoder (§4.2)

The textual form is built as a character list and wrapped into a `String`
at the end.  One IEEE-754 binary64 value is a dyadic rational, so it has an
exact finite decimal expansion; the numeric contract of §4.2 (a
round-trippable decimal representation, no fixed-precision truncation) is
modelled by that exact expansion. -/

/-- Decimal digit characters of `n`, most significant first. -/
def decDigits (n : Nat) : List Char := Nat.toDigits 10 n

/-- Drop trailing zero digits of a fraction part. -/
def trimZeros (l : List Char) : List Char :=
  (l.reverse.dropWhile (fun c => c = '0')).reverse

/-- Exact decimal character rendering of the dyadic rational `m / 2 ^ k`. -/
def dyadicChars (m k : Nat) : List Char :=
  let fr := m % 2 ^ k
  let fd := trimZeros
    (List.replicate (k - (decDigits (fr * 5 ^ k)).length) '0' ++ decDigits (fr * 5 ^ k))
  decDigits (m / 2 ^ k) ++ (if fd = [] then [] else '.' :: fd)

/-- Modelled from the spec: numeric rendering of one 64-bit IEEE-754
pattern (§4.2) — sign, then the exact decimal expansion of the represented
dyadic rational (finite values; the reserved exponent renders as the usual
`inf` / `nan` words, outside the spec's geometry payloads). -/
def numChars (w : Nat) : List Char :=
  let sgn : List Char := if w / 2 ^ 63 % 2 = 1 then ['-'] else []
  let e := w / 2 ^ 52 % 2 ^ 11
  let f := w % 2 ^ 52
  if e = 2047 then (if f = 0 then sgn ++ ['i', 'n', 'f'] else ['n', 'a', 'n'])
  else if e = 0 then sgn ++ dyadicChars f 1074
  else if 1075 ≤ e then sgn ++ decDigits ((2 ^ 52 + f) * 2 ^ (e - 1075))
  else sgn ++ dyadicChars (2 ^ 52 + f) (1075 - e)

/-- Join character chunks with `", "` between them. -/
def commaJoin : List (List Char) → List Char
  | [] => []
  | [x] => x
  | x :: y :: r => x ++ ',' :: ' ' :: commaJoin (y :: r)

/-- Join character chunks with a single space between them. -/
def spaceJoin : List (List Char) → List Char
  | [] => []
  | [x] => x
  | x :: y :: r => x ++ ' ' :: spaceJoin (y :: r)

/-- One coordinate tuple: space-separated numbers (§4.2). -/
def coordChars (c : List Nat) : List Char := spaceJoin (c.map numChars)

/-- Wrap a chunk in parentheses. -/
def parenGroup (l : List Char) : List Char := '(' :: (l ++ [')'])

/-- The upper-case keyword of each variant (§4.2). -/
def kwChars : GeomBody → List Char
  | .point _ => ['P', 'O', 'I', 'N', 'T']
  | .lineString _ => ['L', 'I', 'N', 'E', 'S', 'T', 'R', 'I', 'N', 'G']
  | .polygon _ => ['P', 'O', 'L', 'Y', 'G', 'O', 'N']
  | .multiPoint _ => ['M', 'U', 'L', 'T', 'I', 'P', 'O', 'I', 'N', 'T']
  | .multiLineString _ =>
    ['M', 'U', 'L', 'T', 'I', 'L', 'I', 'N', 'E', 'S', 'T', 'R', 'I', 'N', 'G']
  | .multiPolygon _ => ['M', 'U', 'L', 'T', 'I', 'P', 'O', 'L', 'Y', 'G', 'O', 'N']

/-- Keyword suffix for extended dimensionality (§4.2): `Z`, `M` or `ZM`. -/
def sfxChars (z m : Bool) : List Char :=
  if z && m then [' ', 'Z', 'M']
  else if z then [' ', 'Z']
  else if m then [' ', 'M']
  else []

/-- The characters `EMPTY`. -/
def emptyChars : List Char := ['E', 'M', 'P', 'T', 'Y']

/-- Modelled from the spec: the body text of §4.2 — `EMPTY` for zero
coordinates, otherwise nested parenthesised, comma-separated coordinate
lists matching the variant's nesting depth. -/
def bodyChars : GeomBody → List Char
  | .point c => if c = [] then emptyChars else parenGroup (coordChars c)
  | .lineString cs =>
    if cs = [] then emptyChars else parenGroup (commaJoin (cs.map coordChars))
  | .polygon rs =>
    if rs = [] then emptyChars
    else parenGroup (commaJoin (rs.map (fun r => parenGroup (commaJoin (r.map coordChars)))))
  | .multiPoint ps =>
    if ps = [] then emptyChars
    else parenGroup (commaJoin (ps.map (fun c => parenGroup (coordChars c))))
  | .multiLineString ls =>
    if ls = [] then emptyChars
    else parenGroup (commaJoin (ls.map (fun r => parenGroup (commaJoin (r.map coordChars)))))
  | .multiPolygon qs =>
    if qs = [] then emptyChars
    else parenGroup (commaJoin (qs.map (fun rs =>
      parenGroup (commaJoin (rs.map (fun r => parenGroup (commaJoin (r.map coordChars))))))))

/-- The full WKT character sequence of a geometry: keyword, dimensionality
suffix, one space, then the body (§4.2).  The SRID metadata is not part of
the text. -/
def wktChars (g : Geometry) : List Char :=
  kwChars g.body ++ sfxChars g.hasZ g.hasM ++ ' ' :: bodyChars g.body

/-- Modelled from the spec: the WKT encoder of §4.2, as a string. -/
def encode_wkt (g : Geometry) : String := String.mk (wktChars g)

/-! ## Token-level WKT grammar

For the §8 round-trip property `parse_wkt (encode_wkt G) = G` the text is
modelled at the level of its lexical tokens: keywords, the dimensionality
suffix, parentheses, commas, the `EMPTY` word, and numbers.  One number
token carries the 64-bit pattern it denotes; §4.2 fixes the numeric text to
a round-trippable decimal representation precisely so that the number ↔
text direction is invertible, which is what the token models. -/

inductive WTok where
  | kw (k : Nat)
  | sfx (z m : Bool)
  | lp
  | rp
  | comma
  | empt
  | num (w : Nat)
deriving DecidableEq, Repr

/-- Number tokens of one coordinate tuple. -/
def coordToks (c : List Nat) : List WTok := c.map WTok.num

/-- Comma-separated token chunks. -/
def sepToks : List (List WTok) → List WTok
  | [] => []
  | [x] => x
  | x :: y :: r => x ++ WTok.comma :: sepToks (y :: r)

/-- Parenthesised token chunk. -/
def grpToks (l : List WTok) : List WTok := WTok.lp :: (l ++ [WTok.rp])

/-- A counted body: `EMPTY` when there are no elements, otherwise the
parenthesised comma-separated elements. -/
def seqToks {α : Type} (f : α → List WTok) (xs : List α) : List WTok :=
  match xs with
  | [] => [WTok.empt]
  | _ :: _ => grpToks (sepToks (xs.map f))

/-- One ring / one nested linestring: parenthesised coordinate list. -/
def ringToks (r : List (List Nat)) : List WTok :=
  grpToks (sepToks (r.map coordToks))

/-- Token body of each variant, mirroring `bodyChars`. -/
def bodyToks : GeomBody → List WTok
  | .point c => if c = [] then [WTok.empt] else grpToks (coordToks c)
  | .lineString cs => seqToks coordToks cs
  | .polygon rs => seqToks ringToks rs
  | .multiPoint ps => seqToks (fun c => grpToks (coordToks c)) ps
  | .multiLineString ls => seqToks ringToks ls
  | .multiPolygon qs => seqToks (fun rs => grpToks (sepToks (rs.map ringToks))) qs

/-- Modelled from the spec: the token sequence of the §4.2 WKT text —
keyword token, dimensionality-suffix token when extended, then the body
tokens.  The SRID metadata is dropped. -/
def encodeWktToks (g : Geometry) : List WTok :=
  WTok.kw (kindCode g.body) ::
    ((if g.hasZ || g.hasM then [WTok.sfx g.hasZ g.hasM] else []) ++ bodyToks g.body)

/-- Greedily read number tokens. -/
def parseNums : List WTok → List Nat × List WTok
  | .num w :: r =>
    let p := parseNums r
    (w :: p.1, p.2)
  | r => ([], r)

/-- Parse one coordinate tuple: a nonempty run of numbers. -/
def parseCoordT (t : List WTok) : Option (List Nat × List WTok) :=
  match parseNums t with
  | ([], _) => none
  | (c, r) => some (c, r)

/-- Parse a nonempty comma-separated list of items (the first argument is
fuel bounding the number of items). -/
def parseSep {α : Type} :
    Nat → (List WTok → Option (α × List WTok)) → List WTok →
      Option (List α × List WTok)
  | 0, _, _ => none
  | f + 1, item, t =>
    match item t with
    | none => none
    | some (a, WTok.comma :: r) =>
      match parseSep f item r with
      | some (l, r2) => some (a :: l, r2)
      | none => none
    | some (a, r) => some ([a], r)

/-- Parse a parenthesised, possibly empty, comma-separated list of items. -/
def parseGrp {α : Type} (f : Nat) (item : List WTok → Option (α × List WTok)) :
    List WTok → Option (List α × List WTok) :=
  fun t =>
    match t with
    | WTok.lp :: WTok.rp :: r => some ([], r)
    | WTok.lp :: r =>
      match parseSep f item r with
      | some (l, WTok.rp :: r2) => some (l, r2)
      | _ => none
    | _ => none

/-- Parse a counted body: the `EMPTY` word or a parenthesised list. -/
def parseBody {α : Type} (f : Nat) (item : List WTok → Option (α × List WTok)) :
    List WTok → Option (List α × List WTok) :=
  fun t =>
    match t with
    | WTok.empt :: r => some ([], r)
    | _ => parseGrp f item t

/-- Parse one parenthesised coordinate tuple (a MultiPoint element). -/
def parseMPItem (t : List WTok) : Option (List Nat × List WTok) :=
  match t with
  | WTok.lp :: r =>
    match parseCoordT r with
    | some (c, WTok.rp :: r2) => some (c, r2)
    | _ => none
  | _ => none

/-- Parse the body of the keyword kind `k` with dimensionality flags
`z`, `m` (fuel `f` bounds list lengths for the comma-separated levels). -/
def parseKind (f : Nat) (k : Nat) (z m : Bool) (r : List WTok) :
    Option (Geometry × List WTok) :=
  match k with
  | 1 =>
    match r with
    | WTok.empt :: r2 => some (Geometry.mk z m none (.point []), r2)
    | WTok.lp :: r2 =>
      match parseCoordT r2 with
      | some (c, WTok.rp :: r3) => some (Geometry.mk z m none (.point c), r3)
      | _ => none
    | _ => none
  | 2 =>
    match parseBody f parseCoordT r with
    | some (cs, r2) => some (Geometry.mk z m none (.lineString cs), r2)
    | none => none
  | 3 =>
    match parseBody f (parseGrp f parseCoordT) r with
    | some (rs, r2) => some (Geometry.mk z m none (.polygon rs), r2)
    | none => none
  | 4 =>
    match parseBody f parseMPItem r with
    | some (ps, r2) => some (Geometry.mk z m none (.multiPoint ps), r2)
    | none => none
  | 5 =>
    match parseBody f (parseGrp f parseCoordT) r with
    | some (ls, r2) => some (Geometry.mk z m none (.multiLineString ls), r2)
    | none => none
  | 6 =>
    match parseBody f (parseGrp f (parseGrp f parseCoordT)) r with
    | some (qs, r2) => some (Geometry.mk z m none (.multiPolygon qs), r2)
    | none => none
  | _ => none

/-- Modelled from the spec: a parser of the §4.2 WKT token stream back into
a `Geometry` — keyword, optional dimensionality suffix, body.  The text
carries no SRID, so the result's `srid` is `none`. -/
def parse_wkt (t : List WTok) : Option (Geometry × List WTok) :=
  match t with
  | WTok.kw k :: r0 =>
    match r0 with
    | WTok.sfx z m :: r1 => parseKind t.length k z m r1
    | _ => parseKind t.length k false false r0
  | _ => none

/-- `g` with its SRID metadata erased. -/
def stripSrid (g : Geometry) : Geometry :=
  Geometry.mk g.hasZ g.hasM none g.body

/-- Structural equality of geometries (§3: the SRID is metadata attached to
a geometry, not altering its shape): same flags, same body. -/
def structEq (g h : Geometry) : Prop :=
  g.hasZ = h.hasZ ∧ g.hasM = h.hasM ∧ g.body = h.body

/-! ## Exact value of an IEEE-754 binary64 pattern -/

/-- The exact rational value of a finite IEEE-754 binary64 bit pattern
(sign bit 63, exponent bits 62–52, fraction bits 51–0). -/
def w64ToRat (w : Nat) : ℚ :=
  let s : ℚ := if w / 2 ^ 63 % 2 = 1 then -1 else 1
  let e : Nat := w / 2 ^ 52 % 2 ^ 11
  let f : Nat := w % 2 ^ 52
  if e = 0 then s * (f : ℚ) / 2 ^ 1074
  else s * ((2 ^ 52 + f : Nat) : ℚ) * 2 ^ e / 2 ^ 1075

/-- `p` consumes exactly `c` producing `a`, for any continuation. -/
def Consumes {α : Type} (p : Parser α) (c : List Nat) (a : α) : Prop :=
  ∀ r, p (c ++ r) = .ok (a, r)

/-- On success the parser consumed a prefix, its answer depends only on that
prefix, and every proper prefix of it fails with `truncatedInput`. -/
def Good {α : Type} (p : Parser α) : Prop :=
  ∀ bs a r, p bs = .ok (a, r) →
    ∃ c, bs = c ++ r ∧ Consumes p c a ∧
      ∀ k, k < c.length → p (c.take k) = .error .truncatedInput

/-- The full generalized pipeline of the script: hex-decode, then WKB
decode (§6: input is a hexadecimal string representing WKB bytes). -/
def decodeHex (s : List Char) : Except DecodeError Geometry :=
  match unhex s with
  | .ok bs => decode bs
  | .error e => .error e

/-- All coordinate tuples of a body have dimensionality `d`. -/
def dimsOk (d : Nat) : GeomBody → Prop
  | .point c => c.length = d
  | .lineString cs => ∀ c ∈ cs, c.length = d
  | .polygon rs => ∀ r ∈ rs, ∀ c ∈ r, c.length = d
  | .multiPoint ps => ∀ c ∈ ps, c.length = d
  | .multiLineString ls => ∀ cs ∈ ls, ∀ c ∈ cs, c.length = d
  | .multiPolygon qs => ∀ rs ∈ qs, ∀ r ∈ rs, ∀ c ∈ r, c.length = d

/-- Does the token stream begin with a number token? -/
def headNum : List WTok → Bool
  | .num _ :: _ => true
  | _ => false

/-- Does the token stream begin with a comma token? -/
def headComma : List WTok → Bool
  | .comma :: _ => true
  | _ => false

/-- The fuel demanded by each comma-separated level of a body. -/
def fuelOk (f : Nat) : GeomBody → Prop
  | .point _ => True
  | .lineString cs => cs.length ≤ f
  | .polygon rs => rs.length ≤ f ∧ ∀ ring ∈ rs, ring.length ≤ f
  | .multiPoint ps => ps.length ≤ f
  | .multiLineString ls => ls.length ≤ f ∧ ∀ cs ∈ ls, cs.length ≤ f
  | .multiPolygon qs => qs.length ≤ f ∧
      ∀ rs ∈ qs, rs.length ≤ f ∧ ∀ ring ∈ rs, ring.length ≤ f

/-- Every coordinate tuple of the body is nonempty. -/
def coordsNe : GeomBody → Prop
  | .point c => c ≠ []
  | .lineString cs => ∀ c ∈ cs, c ≠ []
  | .polygon rs => ∀ ring ∈ rs, ∀ c ∈ ring, c ≠ []
  | .multiPoint ps => ∀ c ∈ ps, c ≠ []
  | .multiLineString ls => ∀ cs ∈ ls, ∀ c ∈ cs, c ≠ []
  | .multiPolygon qs => ∀ rs ∈ qs, ∀ ring ∈ rs, ∀ c ∈ ring, c ≠ []

instance (d : Nat) (b : GeomBody) : Decidable (dimsOk d b) := by
  cases b <;> (unfold dimsOk; infer_instance)

/-- The geometry value decoded from the script's literal (source line 5,
`geom = wkb.loads(binascii.unhexlify(wkb_hex))`): a 2-D point with
SRID 4326 whose coordinate patterns are the two little-endian IEEE-754
words of the payload. -/
def geom : Geometry :=
  Geometry.mk false false (some 4326)
    (.point [13860552651297731379, 4629614510773977796])

/-- `q` is within `1/100` of `target` — the reading of the spec's
"approximately" for coordinate values. -/
def approx (q target : ℚ) : Prop := |q - target| < 1/100

/-- The body has zero coordinates. -/
def emptyBody : GeomBody → Prop
  | .point c => c = []
  | .lineString cs => cs = []
  | .polygon rs => rs = []
  | .multiPoint ps => ps = []
  | .multiLineString ls => ls = []
  | .multiPolygon qs => qs = []

/-- A well-formed geometry exercising SRID, extended dimensionality and the
nested Multi* decoding path, used to instantiate round-trip claims. -/
def gw3 : Geometry :=
  Geometry.mk true false (some 4326)
    (.multiPolygon [[[[1, 2, 3], [4, 5, 6]], []], []])

/-! ## Round trip: the decoder inverts the encoder -/

theorem pbind_ok_elim {α β : Type} {p : Parser α} {q : α → Parser β} {bs : List Nat}
    {a : α} {r : List Nat} (h : p bs = .ok (a, r)) : pbind p q bs = q a r := by
  simp [pbind, h]

theorem readBytes_append (l r : List Nat) : readBytes l.length (l ++ r) = .ok (l, r) := by
  induction l with
  | nil => simp [readBytes, ppure]
  | cons b t ih =>
    simp only [List.length_cons, List.cons_append, readBytes]
    rw [pbind_ok_elim (show readByte (b :: (t ++ r)) = .ok (b, t ++ r) from rfl)]
    rw [pbind_ok_elim ih]
    rfl

theorem natLE_length (k n : Nat) : (natLE k n).length = k := by
  induction k generalizing n with
  | zero => rfl
  | succ k ih => simp [natLE, ih]

theorem leNat_natLE (k n : Nat) (h : n < 2 ^ (8 * k)) : leNat (natLE k n) = n := by
  induction k generalizing n with
  | zero => simp at h; simp [h, natLE, leNat]
  | succ k ih =>
    have hd : n / 256 < 2 ^ (8 * k) := by
      rw [Nat.div_lt_iff_lt_mul (by norm_num : (0:Nat) < 256)]
      calc n < 2 ^ (8 * (k + 1)) := h
        _ = 2 ^ (8 * k) * 256 := by ring
    have := ih (n / 256) hd
    simp only [natLE, leNat, List.foldr_cons] at this ⊢
    rw [this]
    omega

theorem readBytes_of_length (k : Nat) (l r : List Nat) (h : l.length = k) :
    readBytes k (l ++ r) = .ok (l, r) := by
  subst h; exact readBytes_append l r

theorem readUInt_enc (lil : Bool) (k n : Nat) (r : List Nat) (h : n < 2 ^ (8 * k)) :
    readUInt lil k (encNat lil k n ++ r) = .ok (n, r) := by
  have hlen : (encNat lil k n).length = k := by
    cases lil <;> simp [encNat, natLE_length]
  unfold readUInt
  rw [pbind_ok_elim (readBytes_of_length k (encNat lil k n) r hlen)]
  cases lil <;> simp [encNat, ppure, leNat_natLE k n h]

theorem preplicate_enc {α : Type} (p : Parser α) (enc : α → List Nat) (P : α → Prop)
    (hp : ∀ x r, P x → p (enc x ++ r) = .ok (x, r)) :
    ∀ (xs : List α) (r : List Nat), (∀ x ∈ xs, P x) →
      preplicate xs.length p ((xs.map enc).flatten ++ r) = .ok (xs, r) := by
  intro xs
  induction xs with
  | nil => intro r _; simp [preplicate, ppure]
  | cons x t ih =>
    intro r hx
    simp only [List.length_cons, List.map_cons, List.flatten_cons, List.append_assoc, preplicate]
    rw [pbind_ok_elim (hp x _ (hx x (by simp)))]
    rw [pbind_ok_elim (ih r (fun y hy => hx y (by simp [hy])))]
    rfl

theorem readCoord_enc (lil : Bool) (d : Nat) (c : List Nat) (r : List Nat)
    (h : coordWf d c) : readCoord lil d (encCoord lil c ++ r) = .ok (c, r) := by
  obtain ⟨hl, hb⟩ := h
  subst hl
  unfold readCoord encCoord
  exact preplicate_enc (readUInt lil 8) (encNat lil 8) (fun w => w < 2 ^ 64)
    (fun w r2 hw => readUInt_enc lil 8 w r2 (by norm_num at hw ⊢; omega)) c r
    (by simpa [List.all_eq_true, decide_eq_true_eq] using hb)

theorem readCoordSeq_enc (lil : Bool) (d : Nat) (cs : List (List Nat)) (r : List Nat)
    (hn : cs.length < 2 ^ 32) (hc : ∀ c ∈ cs, coordWf d c) :
    readCoordSeq lil d (encSeq lil (encCoord lil) cs ++ r) = .ok (cs, r) := by
  unfold readCoordSeq encSeq
  simp only [List.append_assoc]
  rw [pbind_ok_elim (readUInt_enc lil 4 cs.length _ (by norm_num at hn ⊢; omega))]
  exact preplicate_enc (readCoord lil d) (encCoord lil) (coordWf d)
    (fun c r2 hcw => readCoord_enc lil d c r2 hcw) cs r hc

theorem readRingSeq_enc (lil : Bool) (d : Nat) (rs : List (List (List Nat))) (r : List Nat)
    (hn : rs.length < 2 ^ 32)
    (hr : ∀ ring ∈ rs, ring.length < 2 ^ 32 ∧ ∀ c ∈ ring, coordWf d c) :
    readRingSeq lil d (encSeq lil (encSeq lil (encCoord lil)) rs ++ r) = .ok (rs, r) := by
  unfold readRingSeq encSeq
  simp only [List.append_assoc]
  rw [pbind_ok_elim (readUInt_enc lil 4 rs.length _ (by norm_num at hn ⊢; omega))]
  exact preplicate_enc (readCoordSeq lil d) (fun ring => encSeq lil (encCoord lil) ring)
    (fun ring => ring.length < 2 ^ 32 ∧ ∀ c ∈ ring, coordWf d c)
    (fun ring r2 hw => readCoordSeq_enc lil d ring r2 hw.1 hw.2) rs r hr

theorem readOrder_cons (lil : Bool) (t : List Nat) :
    readOrder ((if lil then 1 else 0) :: t) = .ok (lil, t) := by
  cases lil <;> simp [readOrder, pbind, readByte, ppure, pfail]

theorem tag_flags (k : Nat) (hk : k < 16) (zb mb sb : Bool) :
    tagZ (k + (if zb then 2 ^ 31 else 0) + (if mb then 2 ^ 30 else 0)
        + (if sb then 2 ^ 29 else 0)) = zb ∧
    tagM (k + (if zb then 2 ^ 31 else 0) + (if mb then 2 ^ 30 else 0)
        + (if sb then 2 ^ 29 else 0)) = mb ∧
    tagS (k + (if zb then 2 ^ 31 else 0) + (if mb then 2 ^ 30 else 0)
        + (if sb then 2 ^ 29 else 0)) = sb ∧
    (k + (if zb then 2 ^ 31 else 0) + (if mb then 2 ^ 30 else 0)
        + (if sb then 2 ^ 29 else 0)) % 16 = k ∧
    (k + (if zb then 2 ^ 31 else 0) + (if mb then 2 ^ 30 else 0)
        + (if sb then 2 ^ 29 else 0)) < 2 ^ 32 := by
  rcases zb <;> rcases mb <;> rcases sb <;> norm_num [tagZ, tagM, tagS] <;> omega

theorem readChild_enc {α : Type} (lil : Bool) (k : Nat) (hk : k < 16) (z m : Bool)
    (body : Bool → Parser α) (payload r : List Nat) :
    readChild k z m body (encChild lil k z m payload ++ r) = body lil (payload ++ r) := by
  obtain ⟨hz, hm, hs, hmod, hlt⟩ := tag_flags k hk z m false
  simp only [Bool.false_eq_true, if_false, add_zero] at hz hm hs hmod hlt
  unfold readChild encChild
  simp only [List.cons_append, List.append_assoc]
  rw [pbind_ok_elim (readOrder_cons lil _)]
  rw [pbind_ok_elim (readUInt_enc lil 4 _ _ (by simpa using hlt))]
  simp only [hz, hm, hs, hmod, and_self, if_true, Bool.false_eq_true, if_false]
  rfl

theorem childPoint_enc (lil : Bool) (z m : Bool) (d : Nat) (c : List Nat) (r : List Nat)
    (hc : coordWf d c) :
    readChild 1 z m (fun l2 => readCoord l2 d)
      (encChild lil 1 z m (encCoord lil c) ++ r) = .ok (c, r) := by
  rw [readChild_enc lil 1 (by norm_num) z m _ _ r]
  exact readCoord_enc lil d c r hc

theorem childLine_enc (lil : Bool) (z m : Bool) (d : Nat) (cs : List (List Nat)) (r : List Nat)
    (hn : cs.length < 2 ^ 32) (hc : ∀ c ∈ cs, coordWf d c) :
    readChild 2 z m (fun l2 => readCoordSeq l2 d)
      (encChild lil 2 z m (encSeq lil (encCoord lil) cs) ++ r) = .ok (cs, r) := by
  rw [readChild_enc lil 2 (by norm_num) z m _ _ r]
  exact readCoordSeq_enc lil d cs r hn hc

theorem childPoly_enc (lil : Bool) (z m : Bool) (d : Nat) (rs : List (List (List Nat)))
    (r : List Nat) (hn : rs.length < 2 ^ 32)
    (hr : ∀ ring ∈ rs, ring.length < 2 ^ 32 ∧ ∀ c ∈ ring, coordWf d c) :
    readChild 3 z m (fun l2 => readRingSeq l2 d)
      (encChild lil 3 z m (encSeq lil (encSeq lil (encCoord lil)) rs) ++ r) = .ok (rs, r) := by
  rw [readChild_enc lil 3 (by norm_num) z m _ _ r]
  exact readRingSeq_enc lil d rs r hn hr

theorem encSeq_def {α : Type} (lil : Bool) (enc : α → List Nat) (xs : List α) :
    encSeq lil enc xs = encNat lil 4 xs.length ++ (xs.map enc).flatten := rfl

theorem pbind_pbind_elim {α β γ : Type} {p : Parser α} {q : α → Parser β}
    {Q : β → Parser γ} {bs : List Nat} {a : α} {r : List Nat}
    (h : p bs = .ok (a, r)) : pbind (pbind p q) Q bs = pbind (q a) Q r := by
  simp [pbind, h]

theorem decodeGeom_enc (lil : Bool) (g : Geometry) (r : List Nat) (h : g.wf) :
    decodeGeom (encode_as_wkb lil g ++ r) = .ok (g, r) := by
  obtain ⟨z, m, srid, body⟩ := g
  obtain ⟨hsrid, hbody⟩ := h
  simp only [Geometry.dim] at hbody
  cases body with
  | point c =>
    simp only [bodyWf] at hbody
    cases srid with
    | none =>
      obtain ⟨hz, hm, hs, hmod, hlt⟩ := tag_flags 1 (by norm_num) z m false
      simp only [Bool.false_eq_true, if_false, add_zero] at hz hm hs hmod hlt
      unfold encode_as_wkb decodeGeom
      simp only [kindCode, Option.isSome_none, Bool.false_eq_true, if_false, add_zero,
        List.cons_append, List.append_assoc, List.nil_append]
      rw [pbind_ok_elim (readOrder_cons lil _)]
      rw [pbind_ok_elim (readUInt_enc lil 4 _ _ hlt)]
      simp only [hz, hm, hs, hmod, Bool.false_eq_true, if_false]
      rw [if_pos (by norm_num)]
      rw [pbind_ok_elim (show (ppure (α := Option Nat) none) _ = .ok (none, _) from rfl)]
      rw [pbind_pbind_elim (readCoord_enc lil (dimOf z m) c r hbody)]
      rfl
    | some s =>
      obtain ⟨hz, hm, hs, hmod, hlt⟩ := tag_flags 1 (by norm_num) z m true
      simp only [if_true] at hz hm hs hmod hlt
      unfold encode_as_wkb decodeGeom
      simp only [kindCode, Option.isSome_some, if_true,
        List.cons_append, List.append_assoc]
      rw [pbind_ok_elim (readOrder_cons lil _)]
      rw [pbind_ok_elim (readUInt_enc lil 4 _ _ hlt)]
      simp only [hz, hm, hs, hmod, if_true]
      rw [if_pos (by norm_num)]
      rw [pbind_ok_elim (pbind_ok_elim (α := Nat)
        (readUInt_enc lil 4 s _ (by simpa using hsrid)))]
      rw [pbind_pbind_elim (readCoord_enc lil (dimOf z m) c r hbody)]
      rfl
  | lineString cs =>
    simp only [bodyWf, List.all_eq_true, decide_eq_true_eq] at hbody
    cases srid with
    | none =>
      obtain ⟨hz, hm, hs, hmod, hlt⟩ := tag_flags 2 (by norm_num) z m false
      simp only [Bool.false_eq_true, if_false, add_zero] at hz hm hs hmod hlt
      unfold encode_as_wkb decodeGeom
      simp only [kindCode, Option.isSome_none, Bool.false_eq_true, if_false, add_zero,
        List.cons_append, List.append_assoc, List.nil_append]
      rw [pbind_ok_elim (readOrder_cons lil _)]
      rw [pbind_ok_elim (readUInt_enc lil 4 _ _ hlt)]
      simp only [hz, hm, hs, hmod, Bool.false_eq_true, if_false]
      rw [if_pos (by norm_num)]
      rw [pbind_ok_elim (show (ppure (α := Option Nat) none) _ = .ok (none, _) from rfl)]
      rw [pbind_pbind_elim (readCoordSeq_enc lil (dimOf z m) cs r hbody.1 hbody.2)]
      rfl
    | some s =>
      obtain ⟨hz, hm, hs, hmod, hlt⟩ := tag_flags 2 (by norm_num) z m true
      simp only [if_true] at hz hm hs hmod hlt
      unfold encode_as_wkb decodeGeom
      simp only [kindCode, Option.isSome_some, if_true,
        List.cons_append, List.append_assoc]
      rw [pbind_ok_elim (readOrder_cons lil _)]
      rw [pbind_ok_elim (readUInt_enc lil 4 _ _ hlt)]
      simp only [hz, hm, hs, hmod, if_true]
      rw [if_pos (by norm_num)]
      rw [pbind_ok_elim (pbind_ok_elim (α := Nat)
        (readUInt_enc lil 4 s _ (by simpa using hsrid)))]
      rw [pbind_pbind_elim (readCoordSeq_enc lil (dimOf z m) cs r hbody.1 hbody.2)]
      rfl
  | polygon rs =>
    simp only [bodyWf, List.all_eq_true, decide_eq_true_eq] at hbody
    have hr : ∀ ring ∈ rs, ring.length < 2 ^ 32 ∧ ∀ c ∈ ring, coordWf (dimOf z m) c :=
      fun ring hring => ⟨(hbody.2 ring hring).1, fun c hc => (hbody.2 ring hring).2 c hc⟩
    cases srid with
    | none =>
      obtain ⟨hz, hm, hs, hmod, hlt⟩ := tag_flags 3 (by norm_num) z m false
      simp only [Bool.false_eq_true, if_false, add_zero] at hz hm hs hmod hlt
      unfold encode_as_wkb decodeGeom
      simp only [kindCode, Option.isSome_none, Bool.false_eq_true, if_false, add_zero,
        List.cons_append, List.append_assoc, List.nil_append]
      rw [pbind_ok_elim (readOrder_cons lil _)]
      rw [pbind_ok_elim (readUInt_enc lil 4 _ _ hlt)]
      simp only [hz, hm, hs, hmod, Bool.false_eq_true, if_false]
      rw [if_pos (by norm_num)]
      rw [pbind_ok_elim (show (ppure (α := Option Nat) none) _ = .ok (none, _) from rfl)]
      rw [pbind_pbind_elim (readRingSeq_enc lil (dimOf z m) rs r hbody.1 hr)]
      rfl
    | some s =>
      obtain ⟨hz, hm, hs, hmod, hlt⟩ := tag_flags 3 (by norm_num) z m true
      simp only [if_true] at hz hm hs hmod hlt
      unfold encode_as_wkb decodeGeom
      simp only [kindCode, Option.isSome_some, if_true,
        List.cons_append, List.append_assoc]
      rw [pbind_ok_elim (readOrder_cons lil _)]
      rw [pbind_ok_elim (readUInt_enc lil 4 _ _ hlt)]
      simp only [hz, hm, hs, hmod, if_true]
      rw [if_pos (by norm_num)]
      rw [pbind_ok_elim (pbind_ok_elim (α := Nat)
        (readUInt_enc lil 4 s _ (by simpa using hsrid)))]
      rw [pbind_pbind_elim (readRingSeq_enc lil (dimOf z m) rs r hbody.1 hr)]
      rfl
  | multiPoint ps =>
    simp only [bodyWf, List.all_eq_true, decide_eq_true_eq] at hbody
    cases srid with
    | none =>
      obtain ⟨hz, hm, hs, hmod, hlt⟩ := tag_flags 4 (by norm_num) z m false
      simp only [Bool.false_eq_true, if_false, add_zero] at hz hm hs hmod hlt
      unfold encode_as_wkb decodeGeom
      simp only [kindCode, Option.isSome_none, Bool.false_eq_true, if_false, add_zero,
        List.cons_append, List.append_assoc, List.nil_append]
      rw [pbind_ok_elim (readOrder_cons lil _)]
      rw [pbind_ok_elim (readUInt_enc lil 4 _ _ hlt)]
      simp only [hz, hm, hs, hmod, Bool.false_eq_true, if_false]
      rw [if_pos (by norm_num)]
      rw [pbind_ok_elim (show (ppure (α := Option Nat) none) _ = .ok (none, _) from rfl)]
      rw [encSeq_def]
      simp only [List.append_assoc]
      rw [pbind_pbind_elim (readUInt_enc lil 4 ps.length _ (by norm_num at hbody ⊢; omega))]
      rw [pbind_pbind_elim (preplicate_enc _ _ (coordWf (dimOf z m))
        (fun c r2 hc => childPoint_enc lil z m (dimOf z m) c r2 hc) ps _ hbody.2)]
      rfl
    | some s =>
      obtain ⟨hz, hm, hs, hmod, hlt⟩ := tag_flags 4 (by norm_num) z m true
      simp only [if_true] at hz hm hs hmod hlt
      unfold encode_as_wkb decodeGeom
      simp only [kindCode, Option.isSome_some, if_true,
        List.cons_append, List.append_assoc]
      rw [pbind_ok_elim (readOrder_cons lil _)]
      rw [pbind_ok_elim (readUInt_enc lil 4 _ _ hlt)]
      simp only [hz, hm, hs, hmod, if_true]
      rw [if_pos (by norm_num)]
      rw [pbind_ok_elim (pbind_ok_elim (α := Nat)
        (readUInt_enc lil 4 s _ (by simpa using hsrid)))]
      rw [encSeq_def]
      simp only [List.append_assoc]
      rw [pbind_pbind_elim (readUInt_enc lil 4 ps.length _ (by norm_num at hbody ⊢; omega))]
      rw [pbind_pbind_elim (preplicate_enc _ _ (coordWf (dimOf z m))
        (fun c r2 hc => childPoint_enc lil z m (dimOf z m) c r2 hc) ps _ hbody.2)]
      rfl
  | multiLineString ls =>
    simp only [bodyWf, List.all_eq_true, decide_eq_true_eq] at hbody
    have hl : ∀ cs ∈ ls, cs.length < 2 ^ 32 ∧ ∀ c ∈ cs, coordWf (dimOf z m) c :=
      fun cs hcs => ⟨(hbody.2 cs hcs).1, fun c hc => (hbody.2 cs hcs).2 c hc⟩
    cases srid with
    | none =>
      obtain ⟨hz, hm, hs, hmod, hlt⟩ := tag_flags 5 (by norm_num) z m false
      simp only [Bool.false_eq_true, if_false, add_zero] at hz hm hs hmod hlt
      unfold encode_as_wkb decodeGeom
      simp only [kindCode, Option.isSome_none, Bool.false_eq_true, if_false, add_zero,
        List.cons_append, List.append_assoc, List.nil_append]
      rw [pbind_ok_elim (readOrder_cons lil _)]
      rw [pbind_ok_elim (readUInt_enc lil 4 _ _ hlt)]
      simp only [hz, hm, hs, hmod, Bool.false_eq_true, if_false]
      rw [if_pos (by norm_num)]
      rw [pbind_ok_elim (show (ppure (α := Option Nat) none) _ = .ok (none, _) from rfl)]
      rw [encSeq_def]
      simp only [List.append_assoc]
      rw [pbind_pbind_elim (readUInt_enc lil 4 ls.length _ (by norm_num at hbody ⊢; omega))]
      rw [pbind_pbind_elim (preplicate_enc _ _
        (fun cs => cs.length < 2 ^ 32 ∧ ∀ c ∈ cs, coordWf (dimOf z m) c)
        (fun cs r2 hc => childLine_enc lil z m (dimOf z m) cs r2 hc.1 hc.2) ls _ hl)]
      rfl
    | some s =>
      obtain ⟨hz, hm, hs, hmod, hlt⟩ := tag_flags 5 (by norm_num) z m true
      simp only [if_true] at hz hm hs hmod hlt
      unfold encode_as_wkb decodeGeom
      simp only [kindCode, Option.isSome_some, if_true,
        List.cons_append, List.append_assoc]
      rw [pbind_ok_elim (readOrder_cons lil _)]
      rw [pbind_ok_elim (readUInt_enc lil 4 _ _ hlt)]
      simp only [hz, hm, hs, hmod, if_true]
      rw [if_pos (by norm_num)]
      rw [pbind_ok_elim (pbind_ok_elim (α := Nat)
        (readUInt_enc lil 4 s _ (by simpa using hsrid)))]
      rw [encSeq_def]
      simp only [List.append_assoc]
      rw [pbind_pbind_elim (readUInt_enc lil 4 ls.length _ (by norm_num at hbody ⊢; omega))]
      rw [pbind_pbind_elim (preplicate_enc _ _
        (fun cs => cs.length < 2 ^ 32 ∧ ∀ c ∈ cs, coordWf (dimOf z m) c)
        (fun cs r2 hc => childLine_enc lil z m (dimOf z m) cs r2 hc.1 hc.2) ls _ hl)]
      rfl
  | multiPolygon qs =>
    simp only [bodyWf, List.all_eq_true, decide_eq_true_eq] at hbody
    have hq : ∀ rs ∈ qs, rs.length < 2 ^ 32 ∧
        ∀ ring ∈ rs, ring.length < 2 ^ 32 ∧ ∀ c ∈ ring, coordWf (dimOf z m) c :=
      fun rs hrs => ⟨(hbody.2 rs hrs).1,
        fun ring hring => ⟨((hbody.2 rs hrs).2 ring hring).1,
          fun c hc => ((hbody.2 rs hrs).2 ring hring).2 c hc⟩⟩
    cases srid with
    | none =>
      obtain ⟨hz, hm, hs, hmod, hlt⟩ := tag_flags 6 (by norm_num) z m false
      simp only [Bool.false_eq_true, if_false, add_zero] at hz hm hs hmod hlt
      unfold encode_as_wkb decodeGeom
      simp only [kindCode, Option.isSome_none, Bool.false_eq_true, if_false, add_zero,
        List.cons_append, List.append_assoc, List.nil_append]
      rw [pbind_ok_elim (readOrder_cons lil _)]
      rw [pbind_ok_elim (readUInt_enc lil 4 _ _ hlt)]
      simp only [hz, hm, hs, hmod, Bool.false_eq_true, if_false]
      rw [if_pos (by norm_num)]
      rw [pbind_ok_elim (show (ppure (α := Option Nat) none) _ = .ok (none, _) from rfl)]
      rw [encSeq_def]
      simp only [List.append_assoc]
      rw [pbind_pbind_elim (readUInt_enc lil 4 qs.length _ (by norm_num at hbody ⊢; omega))]
      rw [pbind_pbind_elim (preplicate_enc _ _
        (fun rs => rs.length < 2 ^ 32 ∧
          ∀ ring ∈ rs, ring.length < 2 ^ 32 ∧ ∀ c ∈ ring, coordWf (dimOf z m) c)
        (fun rs r2 hc => childPoly_enc lil z m (dimOf z m) rs r2 hc.1 hc.2) qs _ hq)]
      rfl
    | some s =>
      obtain ⟨hz, hm, hs, hmod, hlt⟩ := tag_flags 6 (by norm_num) z m true
      simp only [if_true] at hz hm hs hmod hlt
      unfold encode_as_wkb decodeGeom
      simp only [kindCode, Option.isSome_some, if_true,
        List.cons_append, List.append_assoc]
      rw [pbind_ok_elim (readOrder_cons lil _)]
      rw [pbind_ok_elim (readUInt_enc lil 4 _ _ hlt)]
      simp only [hz, hm, hs, hmod, if_true]
      rw [if_pos (by norm_num)]
      rw [pbind_ok_elim (pbind_ok_elim (α := Nat)
        (readUInt_enc lil 4 s _ (by simpa using hsrid)))]
      rw [encSeq_def]
      simp only [List.append_assoc]
      rw [pbind_pbind_elim (readUInt_enc lil 4 qs.length _ (by norm_num at hbody ⊢; omega))]
      rw [pbind_pbind_elim (preplicate_enc _ _
        (fun rs => rs.length < 2 ^ 32 ∧
          ∀ ring ∈ rs, ring.length < 2 ^ 32 ∧ ∀ c ∈ ring, coordWf (dimOf z m) c)
        (fun rs r2 hc => childPoly_enc lil z m (dimOf z m) rs r2 hc.1 hc.2) qs _ hq)]
      rfl

theorem decode_encode (lil : Bool) (g : Geometry) (h : g.wf) :
    decode (encode_as_wkb lil g) = .ok g := by
  unfold decode
  rw [show encode_as_wkb lil g = encode_as_wkb lil g ++ [] by simp]
  rw [decodeGeom_enc lil g [] h]

/-! ## Truncation: the decoder is prefix-monotone

A parser is `Good` when, on success, its result depends only on the consumed
prefix and every proper prefix of that consumed prefix fails with
`truncatedInput`.  All the §4.1 readers are built from `Good` pieces, which
gives the §8 truncated-input property. -/

theorem good_ppure {α : Type} (a : α) : Good (ppure a) := by
  intro bs a2 r h
  simp only [ppure, Except.ok.injEq, Prod.mk.injEq] at h
  obtain ⟨rfl, rfl⟩ := h
  exact ⟨[], by simp, fun r2 => rfl, fun k hk => by simp at hk⟩

theorem good_pfail {α : Type} (e : DecodeError) : Good (pfail (α := α) e) := by
  intro bs a r h
  simp [pfail] at h

theorem good_readByte : Good readByte := by
  intro bs a r h
  cases bs with
  | nil => simp [readByte] at h
  | cons b t =>
    simp only [readByte, Except.ok.injEq, Prod.mk.injEq] at h
    obtain ⟨rfl, rfl⟩ := h
    refine ⟨[b], rfl, fun r2 => rfl, fun k hk => ?_⟩
    have : k = 0 := by simp at hk; omega
    subst this
    rfl

theorem good_pbind {α β : Type} {p : Parser α} {q : α → Parser β}
    (hp : Good p) (hq : ∀ a, Good (q a)) : Good (pbind p q) := by
  intro bs b r h
  unfold pbind at h
  cases hpb : p bs with
  | error e => rw [hpb] at h; cases h
  | ok x =>
    obtain ⟨a, r1⟩ := x
    rw [hpb] at h
    obtain ⟨c1, rfl, hcons1, htr1⟩ := hp bs a r1 hpb
    obtain ⟨c2, rfl, hcons2, htr2⟩ := hq a r1 b r h
    refine ⟨c1 ++ c2, by simp, ?_, ?_⟩
    · intro r2
      show pbind p q (c1 ++ c2 ++ r2) = .ok (b, r2)
      rw [List.append_assoc]
      unfold pbind
      rw [hcons1 (c2 ++ r2)]
      exact hcons2 r2
    · intro k hk
      rw [List.take_append_eq_append_take]
      by_cases hkc : k < c1.length
      · have h0 : c2.take (k - c1.length) = [] := by
          rw [Nat.sub_eq_zero_of_le hkc.le]
          rfl
        unfold pbind
        rw [h0, List.append_nil, htr1 k hkc]
      · push_neg at hkc
        have h1 : c1.take k = c1 := List.take_of_length_le hkc
        have hk2 : k - c1.length < c2.length := by
          simp only [List.length_append] at hk
          omega
        unfold pbind
        rw [h1, hcons1 (c2.take (k - c1.length))]
        exact htr2 _ hk2

theorem good_readBytes (k : Nat) : Good (readBytes k) := by
  induction k with
  | zero => exact good_ppure []
  | succ k ih =>
    exact good_pbind good_readByte fun b => good_pbind ih fun l => good_ppure (b :: l)

theorem good_readUInt (lil : Bool) (k : Nat) : Good (readUInt lil k) :=
  good_pbind (good_readBytes k) fun _ => good_ppure _

theorem good_preplicate {α : Type} (n : Nat) (p : Parser α) (hp : Good p) :
    Good (preplicate n p) := by
  induction n with
  | zero => exact good_ppure []
  | succ n ih =>
    exact good_pbind hp fun a => good_pbind ih fun l => good_ppure (a :: l)

theorem good_readCoord (lil : Bool) (d : Nat) : Good (readCoord lil d) :=
  good_preplicate d _ (good_readUInt lil 8)

theorem good_readCoordSeq (lil : Bool) (d : Nat) : Good (readCoordSeq lil d) :=
  good_pbind (good_readUInt lil 4) fun n =>
    good_preplicate n _ (good_readCoord lil d)

theorem good_readRingSeq (lil : Bool) (d : Nat) : Good (readRingSeq lil d) :=
  good_pbind (good_readUInt lil 4) fun n =>
    good_preplicate n _ (good_readCoordSeq lil d)

theorem good_readOrder : Good readOrder := by
  apply good_pbind good_readByte
  intro b
  by_cases h1 : b = 1
  · simp only [h1, if_pos rfl]
    exact good_ppure true
  · by_cases h0 : b = 0
    · simp only [h0, if_neg (by omega : (0:Nat) ≠ 1), if_pos rfl]
      exact good_ppure false
    · simp only [if_neg h1, if_neg h0]
      exact good_pfail _

theorem good_readChild {α : Type} (k : Nat) (z m : Bool) (body : Bool → Parser α)
    (hb : ∀ lil, Good (body lil)) : Good (readChild k z m body) := by
  apply good_pbind good_readOrder
  intro lil
  apply good_pbind (good_readUInt lil 4)
  intro tag
  by_cases hc : tag % 16 = k ∧ tagZ tag = z ∧ tagM tag = m
  · simp only [if_pos hc]
    refine good_pbind ?_ fun _ => hb lil
    by_cases hs : tagS tag = true
    · simp only [hs, if_pos rfl]
      exact good_pbind (good_readUInt lil 4) fun _ => good_ppure ()
    · simp only [if_neg hs]
      exact good_ppure ()
  · simp only [if_neg hc]
    exact good_pfail _

theorem good_decodeGeom : Good decodeGeom := by
  unfold decodeGeom
  apply good_pbind good_readOrder
  intro lil
  apply good_pbind (good_readUInt lil 4)
  intro tag
  dsimp only
  by_cases hg : 1 ≤ tag % 16 ∧ tag % 16 ≤ 6
  · simp only [if_pos hg]
    refine good_pbind ?_ fun srid => good_pbind ?_ fun body => good_ppure _
    · by_cases hs : tagS tag = true
      · simp only [hs, if_pos rfl]
        exact good_pbind (good_readUInt lil 4) fun s => good_ppure _
      · simp only [if_neg hs]
        exact good_ppure none
    · rcases show tag % 16 = 1 ∨ tag % 16 = 2 ∨ tag % 16 = 3 ∨ tag % 16 = 4 ∨
          tag % 16 = 5 ∨ tag % 16 = 6 by omega with h | h | h | h | h | h <;>
        rw [h]
      · exact good_pbind (good_readCoord lil _) fun c => good_ppure _
      · exact good_pbind (good_readCoordSeq lil _) fun cs => good_ppure _
      · exact good_pbind (good_readRingSeq lil _) fun rs => good_ppure _
      · exact good_pbind (good_readUInt lil 4) fun n =>
          good_pbind (good_preplicate n _
            (good_readChild 1 _ _ _ fun l2 => good_readCoord l2 _))
            fun ps => good_ppure _
      · exact good_pbind (good_readUInt lil 4) fun n =>
          good_pbind (good_preplicate n _
            (good_readChild 2 _ _ _ fun l2 => good_readCoordSeq l2 _))
            fun ls => good_ppure _
      · exact good_pbind (good_readUInt lil 4) fun n =>
          good_pbind (good_preplicate n _
            (good_readChild 3 _ _ _ fun l2 => good_readRingSeq l2 _))
            fun qs => good_ppure _
  · simp only [if_neg hg]
    exact good_pfail _

theorem decode_ok_decodeGeom {bs : List Nat} {g : Geometry}
    (h : decode bs = .ok g) : decodeGeom bs = .ok (g, []) := by
  unfold decode at h
  cases hd : decodeGeom bs with
  | error e => rw [hd] at h; cases h
  | ok p =>
    obtain ⟨g2, rest⟩ := p
    rw [hd] at h
    cases rest with
    | nil =>
      cases h
      rfl
    | cons x t => cases h

theorem decode_dropLast {bs : List Nat} {g : Geometry} (h : decode bs = .ok g) :
    decode bs.dropLast = .error .truncatedInput := by
  have hg : decodeGeom bs = .ok (g, []) := decode_ok_decodeGeom h
  obtain ⟨c, hc, hcons, htr⟩ := good_decodeGeom bs g [] hg
  rw [List.append_nil] at hc
  subst hc
  have hne : bs ≠ [] := by
    intro h0
    rw [h0, show decodeGeom ([] : List Nat) = .error .truncatedInput from rfl] at hg
    cases hg
  have hpos : 0 < bs.length := List.length_pos.mpr hne
  have hdrop : bs.dropLast = bs.take (bs.length - 1) := by
    rw [List.dropLast_eq_take]
  have htr2 := htr (bs.length - 1) (by omega)
  unfold decode
  rw [hdrop, htr2]

theorem pbind_error_elim {α β : Type} {p : Parser α} {q : α → Parser β} {bs : List Nat}
    {e : DecodeError} (h : p bs = .error e) : pbind p q bs = .error e := by
  simp [pbind, h]

theorem decode_bad_order (b : Nat) (rest : List Nat) (h1 : b ≠ 0) (h2 : b ≠ 1) :
    decode (b :: rest) = .error .invalidByteOrder := by
  have horder : readOrder (b :: rest) = .error .invalidByteOrder := by
    simp [readOrder, pbind, readByte, pfail, h1, h2]
  have : decodeGeom (b :: rest) = .error .invalidByteOrder := by
    unfold decodeGeom
    rw [pbind_error_elim horder]
  unfold decode
  rw [this]

/-! ## The hex-decode step -/

theorem unhex_malformed_aux :
    ∀ (n : Nat) (s : List Char), s.length ≤ n →
      (¬ Even s.length ∨ ∃ c ∈ s, hexDigit c = none) →
      unhex s = .error .malformedHexString := by
  intro n
  induction n with
  | zero =>
    intro s hl h
    have : s = [] := List.length_eq_zero.mp (by omega)
    subst this
    rcases h with h | ⟨c, hc, _⟩
    · exact absurd (by simp : Even ([] : List Char).length) h
    · simp at hc
  | succ n ih =>
    intro s hl h
    match s with
    | [] =>
      rcases h with h | ⟨c, hc, _⟩
      · exact absurd (by simp : Even ([] : List Char).length) h
      · simp at hc
    | [c] => rfl
    | c1 :: c2 :: r =>
      cases hd1 : hexDigit c1 with
      | none => simp [unhex, hd1]
      | some v1 =>
        cases hd2 : hexDigit c2 with
        | none => simp [unhex, hd1, hd2]
        | some v2 =>
          have hr : ¬ Even r.length ∨ ∃ c ∈ r, hexDigit c = none := by
            rcases h with hodd | ⟨c, hc, hnone⟩
            · left
              intro he
              exact hodd (by simpa [Nat.even_add] using he)
            · rcases List.mem_cons.mp hc with rfl | hc2
              · rw [hd1] at hnone; cases hnone
              · rcases List.mem_cons.mp hc2 with rfl | hc3
                · rw [hd2] at hnone; cases hnone
                · exact Or.inr ⟨c, hc3, hnone⟩
          have := ih r (by simp at hl; omega) hr
          simp [unhex, hd1, hd2, this]

theorem unhex_malformed (s : List Char)
    (h : ¬ Even s.length ∨ ∃ c ∈ s, hexDigit c = none) :
    unhex s = .error .malformedHexString :=
  unhex_malformed_aux s.length s le_rfl h

theorem decodeHex_malformed (s : List Char)
    (h : ¬ Even s.length ∨ ∃ c ∈ s, hexDigit c = none) :
    decodeHex s = .error .malformedHexString := by
  unfold decodeHex
  rw [unhex_malformed s h]

/-! ## Dimensionality invariant of the decoder -/

theorem pbind_ok_inv {α β : Type} {p : Parser α} {q : α → Parser β} {bs : List Nat}
    {b : β} {r : List Nat} (h : pbind p q bs = .ok (b, r)) :
    ∃ a r1, p bs = .ok (a, r1) ∧ q a r1 = .ok (b, r) := by
  unfold pbind at h
  cases hp : p bs with
  | error e => rw [hp] at h; cases h
  | ok x =>
    obtain ⟨a, r1⟩ := x
    rw [hp] at h
    exact ⟨a, r1, rfl, h⟩

theorem ppure_ok_inv {α : Type} {a b : α} {bs r : List Nat}
    (h : ppure a bs = .ok (b, r)) : b = a ∧ r = bs := by
  simp only [ppure, Except.ok.injEq, Prod.mk.injEq] at h
  exact ⟨h.1.symm, h.2.symm⟩

theorem preplicate_ens {α : Type} {p : Parser α} {Q : α → Prop}
    (hp : ∀ bs a r, p bs = .ok (a, r) → Q a) :
    ∀ (n : Nat) (bs : List Nat) (l : List α) (r : List Nat),
      preplicate n p bs = .ok (l, r) → l.length = n ∧ ∀ x ∈ l, Q x := by
  intro n
  induction n with
  | zero =>
    intro bs l r h
    obtain ⟨rfl, _⟩ := ppure_ok_inv h
    simp
  | succ n ih =>
    intro bs l r h
    obtain ⟨a, r1, ha, h⟩ := pbind_ok_inv h
    obtain ⟨l2, r2, hl2, h⟩ := pbind_ok_inv h
    obtain ⟨rfl, _⟩ := ppure_ok_inv h
    obtain ⟨hlen, hall⟩ := ih r1 l2 r2 hl2
    refine ⟨by simp [hlen], ?_⟩
    intro x hx
    rcases List.mem_cons.mp hx with rfl | hx
    · exact hp _ _ _ ha
    · exact hall x hx

theorem readCoord_ens {lil : Bool} {d : Nat} {bs : List Nat} {c : List Nat} {r : List Nat}
    (h : readCoord lil d bs = .ok (c, r)) : c.length = d :=
  (preplicate_ens (fun _ _ _ _ => trivial) d bs c r h).1

theorem readCoordSeq_ens {lil : Bool} {d : Nat} {bs : List Nat} {cs : List (List Nat)}
    {r : List Nat} (h : readCoordSeq lil d bs = .ok (cs, r)) :
    ∀ c ∈ cs, c.length = d := by
  obtain ⟨n, r1, _, h⟩ := pbind_ok_inv h
  exact (preplicate_ens (fun _ _ _ hc => readCoord_ens hc) n r1 cs r h).2

theorem readRingSeq_ens {lil : Bool} {d : Nat} {bs : List Nat} {rs : List (List (List Nat))}
    {r : List Nat} (h : readRingSeq lil d bs = .ok (rs, r)) :
    ∀ ring ∈ rs, ∀ c ∈ ring, c.length = d := by
  obtain ⟨n, r1, _, h⟩ := pbind_ok_inv h
  exact (preplicate_ens (fun _ _ _ hc => readCoordSeq_ens hc) n r1 rs r h).2

theorem readChild_ens {α : Type} {k : Nat} {z m : Bool} {body : Bool → Parser α}
    {Q : α → Prop} (hb : ∀ lil bs a r, body lil bs = .ok (a, r) → Q a) :
    ∀ {bs : List Nat} {a : α} {r : List Nat}, readChild k z m body bs = .ok (a, r) → Q a := by
  intro bs a r h
  unfold readChild at h
  obtain ⟨lil, r1, _, h⟩ := pbind_ok_inv h
  obtain ⟨tag, r2, _, h⟩ := pbind_ok_inv h
  by_cases hc : tag % 16 = k ∧ tagZ tag = z ∧ tagM tag = m
  · rw [if_pos hc] at h
    obtain ⟨u, r3, _, h⟩ := pbind_ok_inv h
    exact hb lil r3 a r h
  · rw [if_neg hc] at h
    cases h

theorem decodeGeom_dims {bs : List Nat} {g : Geometry} {r : List Nat}
    (h : decodeGeom bs = .ok (g, r)) : dimsOk g.dim g.body := by
  unfold decodeGeom at h
  obtain ⟨lil, r1, _, h⟩ := pbind_ok_inv h
  obtain ⟨tag, r2, _, h⟩ := pbind_ok_inv h
  dsimp only at h
  by_cases hg : 1 ≤ tag % 16 ∧ tag % 16 ≤ 6
  · rw [if_pos hg] at h
    obtain ⟨srid, r3, _, h⟩ := pbind_ok_inv h
    obtain ⟨body, r4, hb, h⟩ := pbind_ok_inv h
    obtain ⟨rfl, _⟩ := ppure_ok_inv h
    simp only [Geometry.dim]
    rcases show tag % 16 = 1 ∨ tag % 16 = 2 ∨ tag % 16 = 3 ∨ tag % 16 = 4 ∨
        tag % 16 = 5 ∨ tag % 16 = 6 by omega with h16 | h16 | h16 | h16 | h16 | h16 <;>
      rw [h16] at hb
    · obtain ⟨c, r5, hc, hb⟩ := pbind_ok_inv hb
      obtain ⟨rfl, _⟩ := ppure_ok_inv hb
      exact readCoord_ens hc
    · obtain ⟨cs, r5, hc, hb⟩ := pbind_ok_inv hb
      obtain ⟨rfl, _⟩ := ppure_ok_inv hb
      exact readCoordSeq_ens hc
    · obtain ⟨rs, r5, hc, hb⟩ := pbind_ok_inv hb
      obtain ⟨rfl, _⟩ := ppure_ok_inv hb
      exact readRingSeq_ens hc
    · obtain ⟨n, r5, _, hb⟩ := pbind_ok_inv hb
      obtain ⟨ps, r6, hc, hb⟩ := pbind_ok_inv hb
      obtain ⟨rfl, _⟩ := ppure_ok_inv hb
      exact (preplicate_ens
        (fun _ _ _ hx => readChild_ens (fun _ _ _ _ hy => readCoord_ens hy) hx)
        n r5 ps r6 hc).2
    · obtain ⟨n, r5, _, hb⟩ := pbind_ok_inv hb
      obtain ⟨ls, r6, hc, hb⟩ := pbind_ok_inv hb
      obtain ⟨rfl, _⟩ := ppure_ok_inv hb
      exact (preplicate_ens
        (fun _ _ _ hx => readChild_ens (fun _ _ _ _ hy => readCoordSeq_ens hy) hx)
        n r5 ls r6 hc).2
    · obtain ⟨n, r5, _, hb⟩ := pbind_ok_inv hb
      obtain ⟨qs, r6, hc, hb⟩ := pbind_ok_inv hb
      obtain ⟨rfl, _⟩ := ppure_ok_inv hb
      exact (preplicate_ens
        (fun _ _ _ hx => readChild_ens (fun _ _ _ _ hy => readRingSeq_ens hy) hx)
        n r5 qs r6 hc).2
  · rw [if_neg hg] at h
    cases h

theorem decode_dims {bs : List Nat} {g : Geometry} (h : decode bs = .ok g) :
    dimsOk g.dim g.body :=
  decodeGeom_dims (decode_ok_decodeGeom h)

/-! ## The token parser inverts the token printer -/

theorem parseNums_append (c : List Nat) (r : List WTok) (hr : headNum r = false) :
    parseNums (coordToks c ++ r) = (c, r) := by
  induction c with
  | nil =>
    cases r with
    | nil => rfl
    | cons t r2 =>
      cases t <;> first | rfl | simp [headNum] at hr
  | cons w ws ih =>
    simp [coordToks, parseNums] at ih ⊢
    simp [ih]

theorem parseCoordT_append (c : List Nat) (r : List WTok) (hc : c ≠ [])
    (hr : headNum r = false) : parseCoordT (coordToks c ++ r) = some (c, r) := by
  unfold parseCoordT
  rw [parseNums_append c r hr]
  cases c with
  | nil => exact absurd rfl hc
  | cons w ws => rfl

theorem parseSep_append {α : Type} (item : List WTok → Option (α × List WTok))
    (pr : α → List WTok) (P : α → Prop) (stop : List WTok → Prop)
    (hstop_comma : ∀ r, stop (.comma :: r))
    (hitem : ∀ x r2, P x → stop r2 → item (pr x ++ r2) = some (x, r2)) :
    ∀ (xs : List α) (f : Nat) (rest : List WTok), xs ≠ [] → xs.length ≤ f →
      (∀ x ∈ xs, P x) → stop rest → headComma rest = false →
      parseSep f item (sepToks (xs.map pr) ++ rest) = some (xs, rest) := by
  intro xs
  induction xs with
  | nil => intro f rest hne; exact absurd rfl hne
  | cons x xs ih =>
    intro f rest _ hf hP hstop hcomma
    cases f with
    | zero => simp at hf
    | succ f =>
      cases xs with
      | nil =>
        simp only [List.map_cons, List.map_nil, sepToks]
        unfold parseSep
        rw [hitem x rest (hP x (by simp)) hstop]
        cases rest with
        | nil => rfl
        | cons t r2 =>
          cases t <;> first | rfl | simp [headComma] at hcomma
      | cons y ys =>
        simp only [List.map_cons, sepToks, List.append_assoc, List.cons_append]
        unfold parseSep
        rw [hitem x (.comma :: (sepToks (pr y :: ys.map pr) ++ rest))
          (hP x (by simp)) (hstop_comma _)]
        have hih := ih f rest (by simp) (by simp at hf ⊢; omega)
          (fun a ha => hP a (by simp [ha])) hstop hcomma
        simp only [List.map_cons] at hih
        simp [hih]

theorem parseGrp_append {α : Type} (item : List WTok → Option (α × List WTok))
    (pr : α → List WTok) (P : α → Prop) (stop : List WTok → Prop)
    (hstop_comma : ∀ r, stop (.comma :: r))
    (hstop_rp : ∀ r, stop (.rp :: r))
    (hitem : ∀ x r2, P x → stop r2 → item (pr x ++ r2) = some (x, r2))
    (hheads : ∀ x, P x → ∃ u w, pr x = u :: w ∧ u ≠ WTok.rp) :
    ∀ (xs : List α) (f : Nat) (rest : List WTok), xs.length ≤ f →
      (∀ x ∈ xs, P x) →
      parseGrp f item (grpToks (sepToks (xs.map pr)) ++ rest) = some (xs, rest) := by
  intro xs f rest hf hP
  cases xs with
  | nil => simp [grpToks, sepToks, parseGrp]
  | cons x xs2 =>
    obtain ⟨u, w, hpr, hu⟩ := hheads x (hP x (by simp))
    have hT : ∃ T, sepToks ((x :: xs2).map pr) = u :: T := by
      cases xs2 with
      | nil => exact ⟨w, by simp [sepToks, hpr]⟩
      | cons y ys => exact ⟨w ++ WTok.comma :: sepToks (pr y :: ys.map pr),
          by simp [sepToks, hpr]⟩
    obtain ⟨T, hT⟩ := hT
    have hsep2 : parseSep f item (sepToks ((x :: xs2).map pr) ++ (WTok.rp :: rest))
        = some (x :: xs2, WTok.rp :: rest) :=
      parseSep_append item pr P stop hstop_comma hitem (x :: xs2) f
        (WTok.rp :: rest) (by simp) hf hP (hstop_rp rest) rfl
    rw [hT] at hsep2
    simp only [List.cons_append] at hsep2
    have hlist : grpToks (sepToks ((x :: xs2).map pr)) ++ rest
        = WTok.lp :: u :: (T ++ WTok.rp :: rest) := by
      rw [hT]
      simp [grpToks, List.append_assoc]
    rw [hlist]
    cases u <;> first
      | exact absurd rfl hu
      | simp [parseGrp, hsep2]

theorem parseBody_append {α : Type} (item : List WTok → Option (α × List WTok))
    (pr : α → List WTok) (P : α → Prop) (stop : List WTok → Prop)
    (hstop_comma : ∀ r, stop (.comma :: r))
    (hstop_rp : ∀ r, stop (.rp :: r))
    (hitem : ∀ x r2, P x → stop r2 → item (pr x ++ r2) = some (x, r2))
    (hheads : ∀ x, P x → ∃ u w, pr x = u :: w ∧ u ≠ WTok.rp) :
    ∀ (xs : List α) (f : Nat) (rest : List WTok), xs.length ≤ f →
      (∀ x ∈ xs, P x) →
      parseBody f item (seqToks pr xs ++ rest) = some (xs, rest) := by
  intro xs f rest hf hP
  cases xs with
  | nil => simp [seqToks, parseBody]
  | cons x xs2 =>
    have hg := parseGrp_append item pr P stop hstop_comma hstop_rp hitem hheads
      (x :: xs2) f rest hf hP
    simp only [seqToks]
    rw [show parseBody f item (grpToks (sepToks ((x :: xs2).map pr)) ++ rest)
        = parseGrp f item (grpToks (sepToks ((x :: xs2).map pr)) ++ rest) from by
      simp [grpToks, parseBody]]
    exact hg

theorem sepToks_length (xss : List (List WTok)) (h : ∀ x ∈ xss, x ≠ []) :
    xss.length ≤ (sepToks xss).length := by
  induction xss with
  | nil => simp [sepToks]
  | cons x t ih =>
    cases t with
    | nil =>
      have := h x (by simp)
      cases x with
      | nil => exact absurd rfl this
      | cons a b => simp [sepToks]
    | cons y r =>
      have hx := h x (by simp)
      have hlen : 1 ≤ x.length := by
        cases x with
        | nil => exact absurd rfl hx
        | cons a b => simp
      have := ih (fun a ha => h a (by simp [List.mem_cons] at ha ⊢; tauto))
      simp only [sepToks, List.length_append, List.length_cons] at this ⊢
      omega

theorem sepToks_elem_length (xss : List (List WTok)) (x : List WTok) (hx : x ∈ xss) :
    x.length ≤ (sepToks xss).length := by
  induction xss with
  | nil => simp at hx
  | cons a t ih =>
    cases t with
    | nil =>
      simp at hx
      subst hx
      simp [sepToks]
    | cons y r =>
      rcases List.mem_cons.mp hx with rfl | hx2
      · simp [sepToks]
      · have := ih hx2
        simp only [sepToks, List.length_append, List.length_cons] at this ⊢
        omega

/-! ## Assembling the WKT round trip -/

theorem coordToks_ne (c : List Nat) (hc : c ≠ []) : coordToks c ≠ [] := by
  cases c with
  | nil => exact absurd rfl hc
  | cons w ws => simp [coordToks]

theorem coordToks_head (c : List Nat) (hc : c ≠ []) :
    ∃ u w, coordToks c = u :: w ∧ u ≠ WTok.rp := by
  cases c with
  | nil => exact absurd rfl hc
  | cons a b => exact ⟨WTok.num a, coordToks b, rfl, by simp⟩

theorem parseMPItem_append (c : List Nat) (r : List WTok) (hc : c ≠ []) :
    parseMPItem (grpToks (coordToks c) ++ r) = some (c, r) := by
  have hsh : grpToks (coordToks c) ++ r = WTok.lp :: (coordToks c ++ (WTok.rp :: r)) := by
    simp [grpToks, List.append_assoc]
  rw [hsh]
  simp [parseMPItem, parseCoordT_append c (WTok.rp :: r) hc rfl]

theorem ringToks_parse (f : Nat) (ring : List (List Nat)) (r : List WTok)
    (hf : ring.length ≤ f) (hc : ∀ c ∈ ring, c ≠ []) :
    parseGrp f parseCoordT (ringToks ring ++ r) = some (ring, r) := by
  unfold ringToks
  exact parseGrp_append parseCoordT coordToks (fun c => c ≠ [])
    (fun t => headNum t = false) (fun _ => rfl) (fun _ => rfl)
    (fun c r2 hcne hr => parseCoordT_append c r2 hcne hr)
    (fun c hcne => coordToks_head c hcne)
    ring f r hf hc

theorem polyToks_parse (f : Nat) (rs : List (List (List Nat))) (r : List WTok)
    (hf : rs.length ≤ f) (hr : ∀ ring ∈ rs, ring.length ≤ f ∧ ∀ c ∈ ring, c ≠ []) :
    parseGrp f (parseGrp f parseCoordT) (grpToks (sepToks (rs.map ringToks)) ++ r)
      = some (rs, r) :=
  parseGrp_append (parseGrp f parseCoordT) ringToks
    (fun ring => ring.length ≤ f ∧ ∀ c ∈ ring, c ≠ []) (fun _ => True)
    (fun _ => trivial) (fun _ => trivial)
    (fun ring r2 hP _ => ringToks_parse f ring r2 hP.1 hP.2)
    (fun ring _ => ⟨WTok.lp, sepToks (ring.map coordToks) ++ [WTok.rp], rfl, by simp⟩)
    rs f r hf hr

theorem parseKind_bodyToks (f : Nat) (z m : Bool) (body : GeomBody)
    (hne : coordsNe body) (hf : fuelOk f body) :
    parseKind f (kindCode body) z m (bodyToks body) =
      some (Geometry.mk z m none body, []) := by
  cases body with
  | point c =>
    simp only [coordsNe] at hne
    simp only [kindCode, bodyToks, if_neg hne]
    have hsh : grpToks (coordToks c) = WTok.lp :: (coordToks c ++ (WTok.rp :: [])) := by
      simp [grpToks]
    rw [hsh]
    simp [parseKind, parseCoordT_append c (WTok.rp :: []) hne rfl]
  | lineString cs =>
    simp only [coordsNe] at hne
    simp only [fuelOk] at hf
    have hb := parseBody_append parseCoordT coordToks (fun c => c ≠ [])
      (fun t => headNum t = false) (fun _ => rfl) (fun _ => rfl)
      (fun c r2 hcne hr => parseCoordT_append c r2 hcne hr)
      (fun c hcne => coordToks_head c hcne)
      cs f [] hf hne
    rw [List.append_nil] at hb
    simp [parseKind, kindCode, bodyToks, hb]
  | polygon rs =>
    simp only [coordsNe] at hne
    simp only [fuelOk] at hf
    have hb := parseBody_append (parseGrp f parseCoordT) ringToks
      (fun ring => ring.length ≤ f ∧ ∀ c ∈ ring, c ≠ []) (fun _ => True)
      (fun _ => trivial) (fun _ => trivial)
      (fun ring r2 hP _ => ringToks_parse f ring r2 hP.1 hP.2)
      (fun ring _ => ⟨WTok.lp, sepToks (ring.map coordToks) ++ [WTok.rp], rfl, by simp⟩)
      rs f [] hf.1 (fun ring hring => ⟨hf.2 ring hring, hne ring hring⟩)
    rw [List.append_nil] at hb
    simp [parseKind, kindCode, bodyToks, hb]
  | multiPoint ps =>
    simp only [coordsNe] at hne
    simp only [fuelOk] at hf
    have hb := parseBody_append parseMPItem (fun c => grpToks (coordToks c))
      (fun c => c ≠ []) (fun _ => True)
      (fun _ => trivial) (fun _ => trivial)
      (fun c r2 hcne _ => parseMPItem_append c r2 hcne)
      (fun c _ => ⟨WTok.lp, coordToks c ++ [WTok.rp], rfl, by simp⟩)
      ps f [] hf hne
    rw [List.append_nil] at hb
    simp [parseKind, kindCode, bodyToks, hb]
  | multiLineString ls =>
    simp only [coordsNe] at hne
    simp only [fuelOk] at hf
    have hb := parseBody_append (parseGrp f parseCoordT) ringToks
      (fun cs => cs.length ≤ f ∧ ∀ c ∈ cs, c ≠ []) (fun _ => True)
      (fun _ => trivial) (fun _ => trivial)
      (fun cs r2 hP _ => ringToks_parse f cs r2 hP.1 hP.2)
      (fun cs _ => ⟨WTok.lp, sepToks (cs.map coordToks) ++ [WTok.rp], rfl, by simp⟩)
      ls f [] hf.1 (fun cs hcs => ⟨hf.2 cs hcs, hne cs hcs⟩)
    rw [List.append_nil] at hb
    simp [parseKind, kindCode, bodyToks, hb]
  | multiPolygon qs =>
    simp only [coordsNe] at hne
    simp only [fuelOk] at hf
    have hb := parseBody_append (parseGrp f (parseGrp f parseCoordT))
      (fun rs => grpToks (sepToks (rs.map ringToks)))
      (fun rs => rs.length ≤ f ∧ ∀ ring ∈ rs, ring.length ≤ f ∧ ∀ c ∈ ring, c ≠ [])
      (fun _ => True) (fun _ => trivial) (fun _ => trivial)
      (fun rs r2 hP _ => polyToks_parse f rs r2 hP.1 hP.2)
      (fun rs _ => ⟨WTok.lp, sepToks (rs.map ringToks) ++ [WTok.rp], rfl, by simp⟩)
      qs f [] hf.1
      (fun rs hrs => ⟨(hf.2 rs hrs).1,
        fun ring hring => ⟨(hf.2 rs hrs).2 ring hring, hne rs hrs ring hring⟩⟩)
    rw [List.append_nil] at hb
    simp [parseKind, kindCode, bodyToks, hb]

theorem ringToks_ne (ring : List (List Nat)) : ringToks ring ≠ [] := by
  simp [ringToks, grpToks]

theorem ringToks_len (ring : List (List Nat)) (hc : ∀ c ∈ ring, c ≠ []) :
    ring.length ≤ (ringToks ring).length := by
  have h := sepToks_length (ring.map coordToks) (by
    intro x hx
    obtain ⟨c, hc2, rfl⟩ := List.mem_map.mp hx
    exact coordToks_ne c (hc c hc2))
  simp only [List.length_map] at h
  simp only [ringToks, grpToks, List.length_cons, List.length_append, List.length_cons,
    List.length_nil]
  omega

theorem fuelOk_mono (f f2 : Nat) (b : GeomBody) (h : fuelOk f b) (hle : f ≤ f2) :
    fuelOk f2 b := by
  cases b with
  | point c => trivial
  | lineString cs => exact le_trans h hle
  | polygon rs =>
    exact ⟨le_trans h.1 hle, fun ring hr => le_trans (h.2 ring hr) hle⟩
  | multiPoint ps => exact le_trans h hle
  | multiLineString ls =>
    exact ⟨le_trans h.1 hle, fun cs hc => le_trans (h.2 cs hc) hle⟩
  | multiPolygon qs =>
    exact ⟨le_trans h.1 hle, fun rs hr =>
      ⟨le_trans ((h.2 rs hr).1) hle, fun ring hring => le_trans ((h.2 rs hr).2 ring hring) hle⟩⟩

theorem fuelOk_bodyToks (b : GeomBody) (hne : coordsNe b) :
    fuelOk (bodyToks b).length b := by
  cases b with
  | point c => trivial
  | lineString cs =>
    cases cs with
    | nil => simp [fuelOk]
    | cons x t =>
      have h := sepToks_length ((x :: t).map coordToks) (by
        intro y hy
        obtain ⟨c, hc2, rfl⟩ := List.mem_map.mp hy
        exact coordToks_ne c (hne c hc2))
      simp only [fuelOk, bodyToks, seqToks, grpToks, List.length_map, List.length_cons,
        List.length_append, List.length_nil] at h ⊢
      omega
  | polygon rs =>
    cases rs with
    | nil => simp [fuelOk, bodyToks, seqToks]
    | cons x t =>
      have h := sepToks_length ((x :: t).map ringToks) (by
        intro y hy
        obtain ⟨ring, hr2, rfl⟩ := List.mem_map.mp hy
        exact ringToks_ne ring)
      refine ⟨?_, ?_⟩
      · simp only [bodyToks, seqToks, grpToks, List.length_map, List.length_cons,
          List.length_append, List.length_nil] at h ⊢
        omega
      · intro ring hring
        have h1 := ringToks_len ring (hne ring hring)
        have h2 := sepToks_elem_length ((x :: t).map ringToks) (ringToks ring)
          (List.mem_map_of_mem ringToks hring)
        simp only [bodyToks, seqToks, grpToks, List.length_map, List.length_cons,
          List.length_append, List.length_nil] at h1 h2 ⊢
        omega
  | multiPoint ps =>
    cases ps with
    | nil => simp [fuelOk]
    | cons x t =>
      have h := sepToks_length ((x :: t).map (fun c => grpToks (coordToks c))) (by
        intro y hy
        obtain ⟨c, hc2, rfl⟩ := List.mem_map.mp hy
        simp [grpToks])
      simp only [fuelOk, bodyToks, seqToks, grpToks, List.length_map, List.length_cons,
        List.length_append, List.length_nil] at h ⊢
      omega
  | multiLineString ls =>
    cases ls with
    | nil => simp [fuelOk, bodyToks, seqToks]
    | cons x t =>
      have h := sepToks_length ((x :: t).map ringToks) (by
        intro y hy
        obtain ⟨cs, hc2, rfl⟩ := List.mem_map.mp hy
        exact ringToks_ne cs)
      refine ⟨?_, ?_⟩
      · simp only [bodyToks, seqToks, grpToks, List.length_map, List.length_cons,
          List.length_append, List.length_nil] at h ⊢
        omega
      · intro cs hcs
        have h1 := ringToks_len cs (hne cs hcs)
        have h2 := sepToks_elem_length ((x :: t).map ringToks) (ringToks cs)
          (List.mem_map_of_mem ringToks hcs)
        simp only [bodyToks, seqToks, grpToks, List.length_map, List.length_cons,
          List.length_append, List.length_nil] at h1 h2 ⊢
        omega
  | multiPolygon qs =>
    cases qs with
    | nil => simp [fuelOk, bodyToks, seqToks]
    | cons x t =>
      have h := sepToks_length
        ((x :: t).map (fun rs => grpToks (sepToks (rs.map ringToks)))) (by
          intro y hy
          obtain ⟨rs, hr2, rfl⟩ := List.mem_map.mp hy
          simp [grpToks])
      refine ⟨?_, ?_⟩
      · simp only [bodyToks, seqToks, grpToks, List.length_map, List.length_cons,
          List.length_append, List.length_nil] at h ⊢
        omega
      · intro rs hrs
        have h2 := sepToks_elem_length
          ((x :: t).map (fun rs => grpToks (sepToks (rs.map ringToks))))
          (grpToks (sepToks (rs.map ringToks)))
          (List.mem_map_of_mem _ hrs)
        have h3 := sepToks_length (rs.map ringToks) (by
          intro y hy
          obtain ⟨ring, hr2, rfl⟩ := List.mem_map.mp hy
          exact ringToks_ne ring)
        refine ⟨?_, ?_⟩
        · simp only [bodyToks, seqToks, grpToks, List.length_map, List.length_cons,
            List.length_append, List.length_nil] at h2 h3 ⊢
          omega
        · intro ring hring
          have h4 := ringToks_len ring (hne rs hrs ring hring)
          have h5 := sepToks_elem_length (rs.map ringToks) (ringToks ring)
            (List.mem_map_of_mem ringToks hring)
          simp only [bodyToks, seqToks, ringToks, grpToks, List.length_map,
            List.length_cons, List.length_append, List.length_nil] at h2 h4 h5 ⊢
          omega

theorem coordsNe_of_wf (d : Nat) (b : GeomBody) (hd : 2 ≤ d) (hb : bodyWf d b) :
    coordsNe b := by
  have hcw : ∀ c : List Nat, coordWf d c → c ≠ [] := by
    intro c hc h0
    subst h0
    obtain ⟨h1, _⟩ := hc
    simp at h1
    omega
  cases b with
  | point c => exact hcw c hb
  | lineString cs =>
    simp only [bodyWf, List.all_eq_true, decide_eq_true_eq] at hb
    exact fun c hc => hcw c (hb.2 c hc)
  | polygon rs =>
    simp only [bodyWf, List.all_eq_true, decide_eq_true_eq] at hb
    exact fun ring hring c hc => hcw c ((hb.2 ring hring).2 c hc)
  | multiPoint ps =>
    simp only [bodyWf, List.all_eq_true, decide_eq_true_eq] at hb
    exact fun c hc => hcw c (hb.2 c hc)
  | multiLineString ls =>
    simp only [bodyWf, List.all_eq_true, decide_eq_true_eq] at hb
    exact fun cs hcs c hc => hcw c ((hb.2 cs hcs).2 c hc)
  | multiPolygon qs =>
    simp only [bodyWf, List.all_eq_true, decide_eq_true_eq] at hb
    exact fun rs hrs ring hring c hc => hcw c (((hb.2 rs hrs).2 ring hring).2 c hc)

theorem bodyToks_head (b : GeomBody) :
    (∃ r, bodyToks b = WTok.empt :: r) ∨ (∃ r, bodyToks b = WTok.lp :: r) := by
  cases b with
  | point c =>
    cases c with
    | nil => exact Or.inl ⟨[], rfl⟩
    | cons a t =>
      right
      refine ⟨coordToks (a :: t) ++ [WTok.rp], ?_⟩
      simp [bodyToks, grpToks]
  | lineString cs =>
    cases cs with
    | nil => exact Or.inl ⟨[], rfl⟩
    | cons a t =>
      right
      refine ⟨sepToks ((a :: t).map coordToks) ++ [WTok.rp], ?_⟩
      simp [bodyToks, seqToks, grpToks]
  | polygon rs =>
    cases rs with
    | nil => exact Or.inl ⟨[], rfl⟩
    | cons a t =>
      right
      refine ⟨sepToks ((a :: t).map ringToks) ++ [WTok.rp], ?_⟩
      simp [bodyToks, seqToks, grpToks]
  | multiPoint ps =>
    cases ps with
    | nil => exact Or.inl ⟨[], rfl⟩
    | cons a t =>
      right
      refine ⟨sepToks ((a :: t).map (fun c => grpToks (coordToks c))) ++ [WTok.rp], ?_⟩
      simp [bodyToks, seqToks, grpToks]
  | multiLineString ls =>
    cases ls with
    | nil => exact Or.inl ⟨[], rfl⟩
    | cons a t =>
      right
      refine ⟨sepToks ((a :: t).map ringToks) ++ [WTok.rp], ?_⟩
      simp [bodyToks, seqToks, grpToks]
  | multiPolygon qs =>
    cases qs with
    | nil => exact Or.inl ⟨[], rfl⟩
    | cons a t =>
      right
      refine ⟨sepToks ((a :: t).map (fun rs => grpToks (sepToks (rs.map ringToks))))
        ++ [WTok.rp], ?_⟩
      simp [bodyToks, seqToks, grpToks]

theorem parse_wkt_encode (g : Geometry) (h : g.wf) :
    parse_wkt (encodeWktToks g) = some (stripSrid g, []) := by
  obtain ⟨z, m, srid, body⟩ := g
  obtain ⟨hsrid, hbody⟩ := h
  simp only [Geometry.dim] at hbody
  have hd2 : 2 ≤ dimOf z m := by unfold dimOf; omega
  have hne : coordsNe body := coordsNe_of_wf (dimOf z m) body hd2 hbody
  have hfe : fuelOk (encodeWktToks (Geometry.mk z m srid body)).length body :=
    fuelOk_mono _ _ body (fuelOk_bodyToks body hne) (by
      simp [encodeWktToks, List.length_append]
      omega)
  cases hzm : z || m with
  | true =>
    have henc : encodeWktToks (Geometry.mk z m srid body)
        = WTok.kw (kindCode body) :: WTok.sfx z m :: bodyToks body := by
      simp [encodeWktToks, hzm]
    rw [henc] at hfe ⊢
    have hp := parseKind_bodyToks
      ((WTok.kw (kindCode body) :: WTok.sfx z m :: bodyToks body).length)
      z m body hne hfe
    simp only [List.length_cons] at hp
    simp [parse_wkt, hp, stripSrid]
  | false =>
    have hz : z = false := by
      cases z
      · rfl
      · cases m <;> simp at hzm
    have hm : m = false := by
      cases m
      · rfl
      · cases z <;> simp at hzm
    subst hz
    subst hm
    have henc : encodeWktToks (Geometry.mk false false srid body)
        = WTok.kw (kindCode body) :: bodyToks body := by
      simp [encodeWktToks]
    rw [henc] at hfe ⊢
    have hp := parseKind_bodyToks
      ((WTok.kw (kindCode body) :: bodyToks body).length)
      false false body hne hfe
    rcases bodyToks_head body with ⟨rb, hbk⟩ | ⟨rb, hbk⟩ <;>
      rw [hbk] at hp ⊢ <;>
      simp only [List.length_cons] at hp <;>
      simp [parse_wkt, hp, stripSrid]

/-! ## The script's literal, and the claims -/

theorem w64_x_value :
    w64ToRat 13860552651297731379 = -7480197506085683/70368744177664 := by
  norm_num [w64ToRat]

theorem w64_y_value :
    w64ToRat 4629614510773977796 = 2230323272962225/70368744177664 := by
  norm_num [w64ToRat]

/-- C1 (counterexample): decoding the script's hex literal does yield
`geom`, but the decoded coordinates are not approximately
`(-109.412..., 2.0537...)`: the first coordinate's exact value is about
`-106.3` and the second about `31.6948`, so neither is within `1/100` of
the claimed values. -/
theorem c1_literal_counterexample :
    decode wkbBytes = .ok geom ∧
    ¬ approx (w64ToRat 13860552651297731379) (-109412/1000) ∧
    ¬ approx (w64ToRat 4629614510773977796) (20537/10000) := by
  refine ⟨rfl, ?_, ?_⟩
  · unfold approx
    rw [w64_x_value]
    norm_num
    rw [abs_of_pos] <;> norm_num
  · unfold approx
    rw [w64_y_value]
    norm_num
    rw [abs_of_pos] <;> norm_num

/-- C1 (amended): decoding the hex literal
`0101000020E61000003333333333935AC0C442AD69DEB13F40` (after hex-decoding
it to bytes) yields a Point geometry carrying SRID 4326 whose coordinates
are approximately `(-106.3, 31.6948)` (exactly the IEEE-754 doubles nearest
those decimals). -/
theorem c1_literal_amended :
    decode wkbBytes = .ok geom ∧
    geom.srid = some 4326 ∧
    geom.body = .point [13860552651297731379, 4629614510773977796] ∧
    approx (w64ToRat 13860552651297731379) (-1063/10) ∧
    approx (w64ToRat 4629614510773977796) (316948/10000) := by
  refine ⟨rfl, rfl, rfl, ?_, ?_⟩
  · unfold approx
    rw [w64_x_value]
    rw [show (-7480197506085683 : ℚ)/70368744177664 - (-1063/10)
        = 1/351843720888320 by norm_num]
    rw [abs_of_pos] <;> norm_num
  · unfold approx
    rw [w64_y_value]
    rw [show (2230323272962225 : ℚ)/70368744177664 - 316948/10000
        = 33/43980465111040000 by norm_num]
    rw [abs_of_pos] <;> norm_num

/-- C2: the WKT text produced for the decoded hard-coded literal starts
with the characters `POINT (`. -/
theorem c2_wkt_starts_with_point :
    decode wkbBytes = .ok geom ∧
    encode_wkt geom = String.mk (wktChars geom) ∧
    "POINT (".toList <+: wktChars geom :=
  ⟨rfl, rfl, ⟨(wktChars geom).drop 7, by rfl⟩⟩

/-- C3: for every representable geometry `G`, decoding the WKB encoding of
`G` (either byte order) yields `G` itself, and parsing the WKT encoding of
`G` yields a geometry structurally equal to `G` (§3: the SRID is metadata
not altering the shape, and WKT carries no SRID). -/
theorem c3_round_trip (g : Geometry) (h : g.wf) :
    decode (encode_as_wkb true g) = .ok g ∧
    decode (encode_as_wkb false g) = .ok g ∧
    parse_wkt (encodeWktToks g) = some (stripSrid g, []) ∧
    structEq g (stripSrid g) :=
  ⟨decode_encode true g h, decode_encode false g h, parse_wkt_encode g h,
    rfl, rfl, rfl⟩

/-- Witness for C3 at a concrete geometry exercising SRID, a Z flag and
nested Multi* decoding. -/
theorem c3_round_trip_witness :
    gw3.wf ∧
    (decode (encode_as_wkb true gw3) = .ok gw3 ∧
     decode (encode_as_wkb false gw3) = .ok gw3 ∧
     parse_wkt (encodeWktToks gw3) = some (stripSrid gw3, []) ∧
     structEq gw3 (stripSrid gw3)) :=
  ⟨by decide, c3_round_trip gw3 (by decide)⟩

/-- C4: decoding any valid WKB byte sequence with its final byte removed
fails with `truncatedInput` and never produces a partial geometry. -/
theorem c4_truncated_input (bs : List Nat) (g : Geometry)
    (h : decode bs = .ok g) :
    decode bs.dropLast = .error .truncatedInput :=
  decode_dropLast h

/-- Witness for C4 at the script's own byte sequence. -/
theorem c4_truncated_input_witness :
    decode wkbBytes = .ok geom ∧
    decode wkbBytes.dropLast = .error .truncatedInput :=
  ⟨rfl, c4_truncated_input wkbBytes geom rfl⟩

/-- C5: for every byte sequence whose first byte is neither 0 nor 1,
decoding fails with `invalidByteOrder` regardless of the remaining
bytes. -/
theorem c5_invalid_byte_order (b : Nat) (rest : List Nat)
    (h0 : b ≠ 0) (h1 : b ≠ 1) :
    decode (b :: rest) = .error .invalidByteOrder :=
  decode_bad_order b rest h0 h1

/-- Witness for C5: first byte 2 followed by the otherwise-valid remainder
of the script's own byte sequence. -/
theorem c5_invalid_byte_order_witness :
    (2 : Nat) ≠ 0 ∧ (2 : Nat) ≠ 1 ∧
    decode (2 :: wkbBytes.drop 1) = .error .invalidByteOrder :=
  ⟨by decide, by decide,
    c5_invalid_byte_order 2 (wkbBytes.drop 1) (by decide) (by decide)⟩

/-- C6: for every input string to the hex-decode step that has odd length
or contains a non-hex-digit character, the pipeline fails with the distinct
named error `malformedHexString`, reported to the caller. -/
theorem c6_malformed_hex (s : List Char)
    (h : ¬ Even s.length ∨ ∃ c ∈ s, hexDigit c = none) :
    decodeHex s = .error .malformedHexString :=
  decodeHex_malformed s h

/-- Witness for C6 at the odd-length non-hex input `"Z"`. -/
theorem c6_malformed_hex_witness :
    ¬ Even (['Z'] : List Char).length ∧
    decodeHex ['Z'] = .error .malformedHexString :=
  ⟨by decide, c6_malformed_hex ['Z'] (Or.inl (by decide))⟩

/-- C7: encoding a LineString with zero coordinates produces exactly
`LINESTRING EMPTY`; in general any geometry with zero coordinates renders
as its (dimensionality-suffixed) upper-case keyword followed by
`" EMPTY"`. -/
theorem c7_empty_geometry :
    encode_wkt (Geometry.mk false false none (.lineString [])) = "LINESTRING EMPTY" ∧
    ∀ g : Geometry, emptyBody g.body →
      encode_wkt g
        = String.mk (kwChars g.body ++ sfxChars g.hasZ g.hasM ++ (' ' :: emptyChars)) := by
  refine ⟨rfl, ?_⟩
  intro g h
  obtain ⟨z, m, srid, b⟩ := g
  cases b <;> simp only [emptyBody] at h <;> subst h <;> rfl

/-- Witness for C7 at an empty Z polygon. -/
theorem c7_empty_geometry_witness :
    emptyBody (Geometry.mk true false (some 4326) (.polygon [])).body ∧
    encode_wkt (Geometry.mk true false (some 4326) (.polygon []))
      = String.mk (kwChars (GeomBody.polygon []) ++ sfxChars true false
          ++ (' ' :: emptyChars)) :=
  ⟨rfl, (c7_empty_geometry.2 (Geometry.mk true false (some 4326) (.polygon [])) rfl)⟩

/-- C8: every geometry produced by the decoder has all its coordinate
tuples of the one dimensionality selected by the header flags. -/
theorem c8_dims_invariant (bs : List Nat) (g : Geometry)
    (h : decode bs = .ok g) :
    dimsOk g.dim g.body :=
  decode_dims h

/-- Witness for C8 at the script's own byte sequence. -/
theorem c8_dims_invariant_witness :
    decode wkbBytes = .ok geom ∧ dimsOk geom.dim geom.body :=
  ⟨rfl, c8_dims_invariant wkbBytes geom rfl⟩

/-- C9: the script's hard-coded hex literal has even length (50
characters), consists only of hexadecimal digits, and hex-decodes
successfully to the decoder's input bytes — the malformed-hex failure
branch is unreachable for the program's actual input. -/
theorem c9_literal_hex_ok :
    wkb_hex.length = 50 ∧
    Even wkb_hex.data.length ∧
    wkb_hex.data.all (fun c => (hexDigit c).isSome) = true ∧
    unhex wkb_hex.data = .ok wkbBytes :=
  ⟨rfl, by decide, by decide, rfl⟩

/-- C10: the WKT text printed for the decoded literal does not contain the
SRID — the decoder carries SRID 4326 in the geometry, but the digit string
`4326` occurs nowhere in the text, which equals the text of the same
geometry with the SRID erased. -/
theorem c10_srid_dropped :
    decode wkbBytes = .ok geom ∧
    geom.srid = some 4326 ∧
    ¬ ("4326".toList <:+: wktChars geom) ∧
    encode_wkt geom = encode_wkt (stripSrid geom) :=
  ⟨rfl, rfl, by decide, rfl⟩

end Wkb
